import Mathlib

/-!
The polling handler of github-openfaas.

A shallow embedding of `function/handler.go` (package `function`): the handler
`Handle` reads an access token, computes a polling checkpoint from the
`interval` setting, lists the issues changed since the checkpoint and posts one
Trello card event per issue to a downstream function.

Everything the handler reaches outside its own package (the file system, the
process environment, the clock, the GitHub client, `net/http`) is gathered in
a `World`; the handler is a function of the world that returns its response,
its error and the ordered list of outside calls it made.

Conventions of the embedding:

* a Go `string` is a Lean `String`, a sequence of Unicode characters;
* Go's `int` and `int64` are integers wrapped to 64 bits where the code
  computes with them (`wrap64`), as on the amd64 platform of the function;
* an `error` is the text of its `Error()` method, and a `(value, error)` result
  is an `Except`;
* a pointer field is an `Option`, nil being `none`;
* the library functions the handler calls (`strconv.Atoi`, `time.Time.Add`,
  `json.Marshal` on `TrelloEvent`, the accessors of `go-github`) are written
  out after their Go sources; `strconv.Quote`, the URL parser behind
  `http.NewRequest` and the transport behind `http.Client.Do` are fields of
  the world;
* the repository pins no Go version, and `encoding/json` changed how it writes
  the backspace and the form feed in Go 1.22: which encoder the function was
  built with is a field of the world too (`jsonShortEscapes`), and the
  statements about the wire form hold for both.
-/

namespace GithubOpenfaas

/-! ## Go values -/

/-- A Go `error`, identified by the text its `Error()` method returns. -/
structure GoError where
  msg : String
  deriving DecidableEq, Repr

/-- Two's complement wrap of an integer to the range of Go's `int64`. -/
def wrap64 (x : Int) : Int := (x + 2 ^ 63) % 2 ^ 64 - 2 ^ 63

/-- Constant `time.Minute`: sixty seconds in nanoseconds. -/
def Minute : Int := 60 * 1000000000

/-- A wall clock instant as `time.Time` keeps it: whole seconds since the Unix
epoch and the nanoseconds inside that second. -/
structure Time where
  sec : Int
  nsec : Int
  deriving DecidableEq, Repr

/-- Nanoseconds since the Unix epoch (not truncated to 64 bits). -/
def Time.UnixNano (t : Time) : Int := t.sec * 1000000000 + t.nsec

/-- A `Time` is well formed when its nanosecond field lies in `[0, 1e9)`. -/
def Time.Valid (t : Time) : Prop := 0 ≤ t.nsec ∧ t.nsec < 1000000000

/-- Method `Time.Add` of package `time`: the duration `d` (nanoseconds) is split
with Go's truncating `/` and `%`, and the nanosecond field is renormalised. -/
def Time.Add (t : Time) (d : Int) : Time :=
  let dsec := Int.tdiv d 1000000000
  let nsec := t.nsec + Int.tmod d 1000000000
  if nsec ≥ 1000000000 then ⟨t.sec + (dsec + 1), nsec - 1000000000⟩
  else if nsec < 0 then ⟨t.sec + (dsec - 1), nsec + 1000000000⟩
  else ⟨t.sec + dsec, nsec⟩

/-! ## strconv.Atoi -/

/-- The two sentinel errors of `strconv`: `ErrSyntax` and `ErrRange`. -/
inductive NumErr where
  | invalidSyntax
  | outOfRange
  deriving DecidableEq, Repr

/-- Text of a `strconv` sentinel error. -/
def NumErr.text : NumErr → String
  | .invalidSyntax => "invalid syntax"
  | .outOfRange => "value out of range"

/-- Decimal digit test of the `strconv` loops: `'0' <= c && c <= '9'`. -/
def isDigit (c : Char) : Bool := decide (48 ≤ c.toNat) && decide (c.toNat ≤ 57)

/-- Digit value `c - '0'`. -/
def digitVal (c : Char) : Nat := c.toNat - 48

/-- The digit loop of `strconv.ParseUint(s, 10, 64)`: `n` is the value read so
far; a non-digit is a syntax error, and the two overflow tests
(`n >= cutoff`, `n1 > maxVal`) give a range error as soon as they trip. -/
def parseUintLoop : List Char → Nat → Except NumErr Nat
  | [], n => .ok n
  | c :: cs, n =>
    if isDigit c then
      if n ≥ (2 ^ 64 - 1) / 10 + 1 then .error .outOfRange
      else
        let n1 := n * 10 + digitVal c
        if n1 > 2 ^ 64 - 1 then .error .outOfRange
        else parseUintLoop cs n1
    else .error .invalidSyntax

/-- Function `strconv.ParseUint(s, 10, 64)`. -/
def ParseUint (s : List Char) : Except NumErr Nat :=
  if s = [] then .error .invalidSyntax else parseUintLoop s 0

/-- Function `strconv.ParseInt(s, 10, 0)` on a 64-bit platform: the sign is
picked off, the rest is read unsigned, and the magnitude is checked against
`1 << 63`. A range error of `ParseUint` carries the value `maxVal`, which the
cutoff tests turn into a range error again. -/
def ParseInt (s : List Char) : Except NumErr Int :=
  match s with
  | [] => .error .invalidSyntax
  | c :: cs =>
    let neg := decide (c = '-')
    let body := if c = '+' ∨ c = '-' then cs else c :: cs
    match ParseUint body with
    | .error .invalidSyntax => .error .invalidSyntax
    | .error .outOfRange => .error .outOfRange
    | .ok un =>
      if !neg && decide (un ≥ 2 ^ 63) then .error .outOfRange
      else if neg && decide (un > 2 ^ 63) then .error .outOfRange
      else .ok (if neg then -(un : Int) else (un : Int))

/-- The digit loop of the fast path of `strconv.Atoi`: no overflow test, since
fewer than 19 bytes cannot exceed the `int` range. -/
def atoiFastLoop : List Char → Int → Except NumErr Int
  | [], n => .ok n
  | c :: cs, n => if isDigit c then atoiFastLoop cs (n * 10 + digitVal c) else .error .invalidSyntax

/-- The value part of `strconv.Atoi` with a 64-bit `int`: strings of 1 to 18
bytes take the fast path, everything else goes through `ParseInt`. -/
def atoiCore (s : String) : Except NumErr Int :=
  if 0 < s.utf8ByteSize ∧ s.utf8ByteSize < 19 then
    match s.data with
    | [] => .error .invalidSyntax
    | c :: cs =>
      let body := if c = '-' ∨ c = '+' then cs else c :: cs
      if body.length < 1 then .error .invalidSyntax
      else
        match atoiFastLoop body 0 with
        | .error e => .error e
        | .ok n => .ok (if c = '-' then -n else n)
  else ParseInt s.data

/-- Function `strconv.Atoi`. The error is a `*NumError` whose text is
`strconv.Atoi: parsing <quoted input>: <sentinel>`; `quote` stands for
`strconv.Quote`. -/
def Atoi (quote : String → String) (s : String) : Except GoError Int :=
  match atoiCore s with
  | .ok n => .ok n
  | .error e => .error ⟨"strconv.Atoi: parsing " ++ quote s ++ ": " ++ e.text⟩

/-! ## encoding/json, as far as `TrelloEvent` needs it -/

/-- Table `hex` of `encoding/json`. -/
def hexDigit (n : Nat) : Char := "0123456789abcdef".data.getD n '0'

/-- Table `htmlSafeSet` of `encoding/json` on the ASCII range: every character
from the space up to DEL except the double quote, the ampersand, the angle
brackets and the backslash. -/
def htmlSafe (c : Char) : Bool :=
  decide (32 ≤ c.toNat) && decide (c.toNat < 128) &&
    !(c = '"' || c = '&' || c = '<' || c = '>' || c = '\\')

/-- What the string encoder of `encoding/json` (with `escapeHTML`, as
`json.Marshal` sets it) writes for one character of the input. The encoder
changed once: since Go 1.22 the backspace and the form feed are written as the
short escapes `\b` and `\f`, before that as `\u0008` and `\u000c`;
`shortEscapes` says which encoder the function was built with. Strings are
modelled as sequences of Unicode characters, so the branch for invalid UTF-8
has no counterpart. -/
def escapeChar (shortEscapes : Bool) (c : Char) : List Char :=
  if c.toNat < 128 then
    if htmlSafe c then [c]
    else if c = '\\' ∨ c = '"' then ['\\', c]
    else if shortEscapes = true ∧ c.toNat = 8 then ['\\', 'b']
    else if shortEscapes = true ∧ c.toNat = 12 then ['\\', 'f']
    else if c = '\n' then ['\\', 'n']
    else if c = '\r' then ['\\', 'r']
    else if c = '\t' then ['\\', 't']
    else ['\\', 'u', '0', '0', hexDigit (c.toNat / 16), hexDigit (c.toNat % 16)]
  else if c.toNat = 0x2028 ∨ c.toNat = 0x2029 then
    ['\\', 'u', '2', '0', '2', hexDigit (c.toNat % 16)]
  else [c]

/-- The JSON string encoding of `encoding/json`: the escaped characters
between two double quotes. -/
def encodeString (shortEscapes : Bool) (s : String) : String :=
  "\"" ++ String.mk (s.data.flatMap (escapeChar shortEscapes)) ++ "\""

/-! ### Reading a JSON string back

What a JSON string literal denotes (RFC 8259, section 7), to state what the
encoder's output means. -/

/-- Value of a hexadecimal digit. -/
def hexVal (c : Char) : Option Nat :=
  if 48 ≤ c.toNat ∧ c.toNat ≤ 57 then some (c.toNat - 48)
  else if 97 ≤ c.toNat ∧ c.toNat ≤ 102 then some (c.toNat - 87)
  else if 65 ≤ c.toNat ∧ c.toNat ≤ 70 then some (c.toNat - 55)
  else none

/-- The character a two-character escape of JSON denotes. -/
def simpleEscape (e : Char) : Option Char :=
  if e = '"' then some '"'
  else if e = '\\' then some '\\'
  else if e = '/' then some '/'
  else if e = 'b' then some (Char.ofNat 8)
  else if e = 'f' then some (Char.ofNat 12)
  else if e = 'n' then some '\n'
  else if e = 'r' then some '\r'
  else if e = 't' then some '\t'
  else none

/-- Reads the body of a JSON string up to its closing quote: the characters
it denotes and what follows the quote. Raw control characters, unknown
escapes and a missing closing quote are refused, and so are `\u` escapes of a
surrogate code unit (the encoder above writes none). -/
def jsonReadBody : List Char → Option (List Char × List Char)
  | [] => none
  | c :: rest =>
    if c = '"' then some ([], rest)
    else if c = '\\' then
      match rest with
      | [] => none
      | e :: rest1 =>
        if e = 'u' then
          match rest1 with
          | h1 :: h2 :: h3 :: h4 :: rest2 =>
            match hexVal h1, hexVal h2, hexVal h3, hexVal h4, jsonReadBody rest2 with
            | some a, some b, some c, some d, some (v, r) =>
              if 0xD800 ≤ ((a * 16 + b) * 16 + c) * 16 + d ∧
                  ((a * 16 + b) * 16 + c) * 16 + d ≤ 0xDFFF then none
              else some (Char.ofNat (((a * 16 + b) * 16 + c) * 16 + d) :: v, r)
            | _, _, _, _, _ => none
          | _ => none
        else
          match simpleEscape e, jsonReadBody rest1 with
          | some x, some (v, r) => some (x :: v, r)
          | _, _ => none
    else if c.toNat < 32 then none
    else
      match jsonReadBody rest with
      | some (v, r) => some (c :: v, r)
      | none => none

/-- The string a JSON string literal denotes: an opening quote, a body, the
closing quote and nothing after it. -/
def jsonStringValue (s : String) : Option String :=
  match s.data with
  | [] => none
  | q :: rest =>
    if q = '"' then
      match jsonReadBody rest with
      | some (v, []) => some (String.mk v)
      | _ => none
    else none

/-- One struct field as the struct encoder sees it: its JSON name, whether it
is tagged `omitempty`, whether its value is empty, and its encoded value. -/
structure FieldEnc where
  name : String
  omitEmpty : Bool
  isEmpty : Bool
  value : String

/-- The field loop of `structEncoder.encode`: `next` is the byte written
before the next field, an opening brace at first and a comma afterwards. -/
def structEncodeLoop : List FieldEnc → String → String → String × String
  | [], next, out => (next, out)
  | f :: fs, next, out =>
    if f.omitEmpty && f.isEmpty then structEncodeLoop fs next out
    else structEncodeLoop fs "," (out ++ next ++ "\"" ++ f.name ++ "\":" ++ f.value)

/-- Function `structEncoder.encode`: the fields in declaration order, then the
closing brace (or both braces when every field was omitted). -/
def structEncode (fields : List FieldEnc) : String :=
  match structEncodeLoop fields "\x7b" "" with
  | (next, out) => if next = "\x7b" then out ++ "\x7b\x7d" else out ++ "\x7d"

/-- The pointer encoder: `null` for a nil pointer, the pointee otherwise. -/
def ptrEncode {α : Type} (enc : α → String) : Option α → String
  | none => "null"
  | some a => enc a

/-! ## The data model of the handler -/

/-- Card contains the details of the card itself. -/
structure Card where
  Title : String
  Description : String
  deriving DecidableEq, Repr

/-- Config contains the details of where the card should be created; both
fields are pointers tagged `omitempty`. -/
structure Config where
  Board : Option String
  List : Option String
  deriving DecidableEq, Repr

/-- TrelloEvent contains all the details of the card to be created; `Config`
is a pointer tagged `omitempty`. -/
structure TrelloEvent where
  Card : Card
  Config : Option Config
  deriving DecidableEq, Repr

/-- The JSON encoder `encoding/json` derives for `Card`. -/
def Card.encode (c : Card) (shortEscapes : Bool) : String :=
  structEncode
    [⟨"title", false, c.Title = "", encodeString shortEscapes c.Title⟩,
     ⟨"description", false, c.Description = "", encodeString shortEscapes c.Description⟩]

/-- The JSON encoder `encoding/json` derives for `Config`: a pointer field is
empty exactly when it is nil. -/
def Config.encode (c : Config) (shortEscapes : Bool) : String :=
  structEncode
    [⟨"board", true, c.Board.isNone, ptrEncode (encodeString shortEscapes) c.Board⟩,
     ⟨"list", true, c.List.isNone, ptrEncode (encodeString shortEscapes) c.List⟩]

/-- The JSON encoder `encoding/json` derives for `TrelloEvent`. -/
def TrelloEvent.encode (r : TrelloEvent) (shortEscapes : Bool) : String :=
  structEncode
    [⟨"card", false, false, r.Card.encode shortEscapes⟩,
     ⟨"config", true, r.Config.isNone,
       ptrEncode (fun c => Config.encode c shortEscapes) r.Config⟩]

/-- Marshal creates a bytearray of a TrelloEvent object: `json.Marshal(r)`,
which has no failing case on a struct of strings and pointers to strings.
`shortEscapes` is the string encoder of the toolchain (see `escapeChar`). -/
def TrelloEvent.Marshal (r : TrelloEvent) (shortEscapes : Bool) : Except GoError String :=
  .ok (r.encode shortEscapes)

/-- The part of `github.Repository` the handler reads. -/
structure Repository where
  HTMLURL : Option String
  deriving DecidableEq, Repr

/-- The part of `github.Issue` the handler reads; every field is a pointer. -/
structure Issue where
  Title : Option String
  HTMLURL : Option String
  Repository : Option Repository
  deriving DecidableEq, Repr

/-- Accessor `(*Issue).GetTitle`: the empty string for a nil issue or a nil field. -/
def Issue.GetTitle : Option Issue → String
  | some i => match i.Title with
    | some t => t
    | none => ""
  | none => ""

/-- Accessor `(*Issue).GetHTMLURL`. -/
def Issue.GetHTMLURL : Option Issue → String
  | some i => match i.HTMLURL with
    | some u => u
    | none => ""
  | none => ""

/-- Accessor `(*Issue).GetRepository`: nil for a nil issue. -/
def Issue.GetRepository : Option Issue → Option GithubOpenfaas.Repository
  | some i => i.Repository
  | none => none

/-- Accessor `(*Repository).GetHTMLURL`. -/
def Repository.GetHTMLURL : Option Repository → String
  | some r => match r.HTMLURL with
    | some u => u
    | none => ""
  | none => ""

/-- An outgoing `*http.Request`: method, target and body. -/
structure Request where
  Method : String
  URL : String
  Body : String
  deriving DecidableEq, Repr

/-- What the downstream service answers: status code and body. -/
structure HTTPResponse where
  StatusCode : Nat
  Body : String
  deriving DecidableEq, Repr

/-- The `handler.Request` of the function SDK; `Handle` never reads it. -/
structure HandlerRequest where
  Body : String
  deriving DecidableEq, Repr

/-- The `handler.Response` of the function SDK, without the unused header. -/
structure Response where
  Body : String
  StatusCode : Nat
  deriving DecidableEq, Repr

/-- Constant `http.StatusInternalServerError`. -/
def StatusInternalServerError : Nat := 500

/-- Constant `http.StatusOK`. -/
def StatusOK : Nat := 200

/-! ## The world outside the package -/

/-- Everything `Handle` asks of its surroundings. `clientDo n` is the answer of
`http.DefaultClient.Do` to the call made after `n` earlier ones;
`jsonShortEscapes` is true when the function was built with Go 1.22 or later,
whose `encoding/json` writes `\b` and `\f` (see `escapeChar`). -/
structure World where
  jsonShortEscapes : Bool
  readFile : String → Except GoError String
  lookupEnv : String → Option String
  now : Time
  quote : String → String
  issuesList : String → Time → Except GoError (List (Option Issue))
  urlParse : String → Option GoError
  clientDo : Nat → Request → Except GoError HTTPResponse

/-- A call that leaves the package, in the order `Handle` makes them. -/
inductive Action where
  | readFile (path : String)
  | issuesList (accessToken : String) (since : Time)
  | newRequest (method url body : String)
  | clientDo (req : Request)
  deriving DecidableEq, Repr

/-- Function `http.NewRequest`: the method is checked (`POST` is valid), the
URL is parsed, and the request is assembled. -/
def NewRequest (w : World) (method url body : String) : Except GoError Request :=
  match w.urlParse url with
  | some err => .error err
  | none => .ok ⟨method, url, body⟩

/-! ## handler.go -/

/-- getSecret reads a secret mounted to the container in OpenFaaS: first from
the openfaas secrets folder, then from the original location. Returns the
calls made and the outcome of the last read. -/
def getSecret (w : World) (name : String) : List Action × Except GoError String :=
  match w.readFile ("/var/openfaas/secrets/" ++ name) with
  | .ok secretBytes => ([.readFile ("/var/openfaas/secrets/" ++ name)], .ok secretBytes)
  | .error _ =>
    ([.readFile ("/var/openfaas/secrets/" ++ name), .readFile ("/run/secrets/" ++ name)],
      w.readFile ("/run/secrets/" ++ name))

/-- getEnvKey tries to get the specified key from the OS environment and
returns either the value or the fallback that was provided. -/
def getEnvKey (w : World) (key : String) (fallback : String) : String :=
  match w.lookupEnv key with
  | some value => value
  | none => fallback

/-- The event literal of the loop body of `Handle`. -/
def Handle.event (trelloBoard trelloList : String) (issue : Option Issue) : TrelloEvent :=
  { Card :=
      { Title := Issue.GetTitle issue
        Description := "Repository: " ++ Repository.GetHTMLURL (Issue.GetRepository issue) ++
          "\nDirect link: " ++ Issue.GetHTMLURL issue }
    Config := some { Board := some trelloBoard, List := some trelloList } }

/-- One pass through the loop body of `Handle` for the issue at index `idx`:
the calls it makes and, when a step fails, the response and error `Handle`
returns. -/
def Handle.body (w : World) (trelloBoard trelloList url : String) (idx : Nat)
    (issue : Option Issue) : List Action × Option (Response × GoError) :=
  let event := Handle.event trelloBoard trelloList issue
  match event.Marshal w.jsonShortEscapes with
  | .error err =>
    ([], some (⟨"error marshalling GitHub issue for Trello: " ++ err.msg,
      StatusInternalServerError⟩, err))
  | .ok payload =>
    match NewRequest w "POST" url payload with
    | .error err =>
      ([.newRequest "POST" url payload],
        some (⟨"error sending message to Trello function: " ++ err.msg,
          StatusInternalServerError⟩, err))
    | .ok trelloReq =>
      match w.clientDo idx trelloReq with
      | .error err =>
        ([.newRequest "POST" url payload, .clientDo trelloReq],
          some (⟨"received error from Trello function: " ++ err.msg,
            StatusInternalServerError⟩, err))
      | .ok _ => ([.newRequest "POST" url payload, .clientDo trelloReq], none)

/-- The loop `for idx := range issues` of `Handle`, from index `idx` on: it
stops at the first pass that returns. -/
def Handle.loop (w : World) (trelloBoard trelloList url : String) :
    Nat → List (Option Issue) → List Action × Option (Response × GoError)
  | _, [] => ([], none)
  | idx, issue :: rest =>
    match Handle.body w trelloBoard trelloList url idx issue with
    | (tr, some failure) => (tr, some failure)
    | (tr, none) =>
      match Handle.loop w trelloBoard trelloList url (idx + 1) rest with
      | (tr2, r) => (tr ++ tr2, r)

/-- One run of the handler: the response, the error (nil is `none`) and the
outside calls in order. -/
structure Run where
  resp : Response
  err : Option GoError
  trace : List Action
  deriving DecidableEq, Repr

/-- The checkpoint computation of `Handle`: `time.Duration(timeInterval) *
time.Minute` in 64-bit arithmetic, negated, added to the current instant. -/
def Handle.since (now : Time) (timeInterval : Int) : Time :=
  let interval := wrap64 (timeInterval * Minute)
  now.Add (wrap64 (-interval))

/-- The board every event of one invocation is sent to: `getEnvKey("trelloboard", "Main")`. -/
def trelloBoard (w : World) : String := getEnvKey w "trelloboard" "Main"

/-- The list every event of one invocation is sent to: `getEnvKey("trellolist", "Tomorrow")`. -/
def trelloList (w : World) : String := getEnvKey w "trellolist" "Tomorrow"

/-- The downstream endpoint: `fmt.Sprintf("%s/function/%s", ofgateway, trellofunction)`. -/
def trelloURL (w : World) : String :=
  getEnvKey w "ofgateway" "http://gateway.openfaas:8080" ++ "/function/" ++
    getEnvKey w "trellofunction" "trellocard"

/-- Handle a function invocation. -/
def Handle (w : World) (_req : HandlerRequest) : Run :=
  match getSecret w "github-accesstoken" with
  | (tr0, .error err) =>
    ⟨⟨"error reading GitHub personal access token: " ++ err.msg, StatusInternalServerError⟩,
      some err, tr0⟩
  | (tr0, .ok accessToken) =>
    match Atoi w.quote (getEnvKey w "interval" "120") with
    | .error err =>
      ⟨⟨"error getting timeinterval: " ++ err.msg, StatusInternalServerError⟩, some err, tr0⟩
    | .ok timeInterval =>
      let t := Handle.since w.now timeInterval
      match w.issuesList accessToken t with
      | .error err =>
        ⟨⟨"error getting new issues from GitHub: " ++ err.msg, StatusInternalServerError⟩,
          some err, tr0 ++ [.issuesList accessToken t]⟩
      | .ok issues =>
        match Handle.loop w (trelloBoard w) (trelloList w) (trelloURL w) 0 issues with
        | (tr1, some (resp, err)) => ⟨resp, some err, tr0 ++ [.issuesList accessToken t] ++ tr1⟩
        | (tr1, none) =>
          ⟨⟨"found a total of " ++ toString issues.length ++ " new issues", StatusOK⟩, none,
            tr0 ++ [.issuesList accessToken t] ++ tr1⟩

/-! ## Reading a run -/

/-- The issue fetches of a trace: access token and `Since` of each call of
`client.Issues.List`. -/
def fetches : List Action → List (String × Time)
  | [] => []
  | .issuesList tok t :: rest => (tok, t) :: fetches rest
  | _ :: rest => fetches rest

/-- The dispatch attempts of a trace: the payload of each call of
`http.NewRequest`, the first outside call of a pass through the loop body. -/
def attempts : List Action → List String
  | [] => []
  | .newRequest _ _ body :: rest => body :: attempts rest
  | _ :: rest => attempts rest

/-- The requests handed to `http.DefaultClient.Do`, in order. -/
def sends : List Action → List Request
  | [] => []
  | .clientDo r :: rest => r :: sends rest
  | _ :: rest => sends rest

/-- The outcome of the secret stage. -/
def secretOf (w : World) : Except GoError String := (getSecret w "github-accesstoken").2

/-- The outcome of the interval stage. -/
def intervalOf (w : World) : Except GoError Int := Atoi w.quote (getEnvKey w "interval" "120")

/-- The request `Handle` builds around a payload. -/
def requestOf (w : World) (payload : String) : Request := ⟨"POST", trelloURL w, payload⟩

/-- The payload of the event built from an issue. -/
def payloadOf (w : World) (issue : Option Issue) : String :=
  (Handle.event (trelloBoard w) (trelloList w) issue).encode w.jsonShortEscapes

/-- Every step of the dispatch of `issue` as the `idx`-th event succeeds: the
event is marshalled, the request is built, and the send returns no error. -/
def Delivered (w : World) (idx : Nat) (issue : Option Issue) : Prop :=
  ∃ payload, (Handle.event (trelloBoard w) (trelloList w) issue).Marshal w.jsonShortEscapes =.ok payload ∧
    w.urlParse (trelloURL w) = none ∧ ∃ r, w.clientDo idx (requestOf w payload) = .ok r

/-- The dispatch of `issue` as the `idx`-th event fails: which step fails first
(by the message `Handle` puts before the error), with which error, and how
many requests reach the network in that pass. -/
inductive FailsAt (w : World) (idx : Nat) (issue : Option Issue) : String → GoError → Nat → Prop
  | marshal (e : GoError) :
      (Handle.event (trelloBoard w) (trelloList w) issue).Marshal w.jsonShortEscapes =.error e →
      FailsAt w idx issue "error marshalling GitHub issue for Trello: " e 0
  | request (payload : String) (e : GoError) :
      (Handle.event (trelloBoard w) (trelloList w) issue).Marshal w.jsonShortEscapes =.ok payload →
      w.urlParse (trelloURL w) = some e →
      FailsAt w idx issue "error sending message to Trello function: " e 0
  | send (payload : String) (e : GoError) :
      (Handle.event (trelloBoard w) (trelloList w) issue).Marshal w.jsonShortEscapes =.ok payload →
      w.urlParse (trelloURL w) = none →
      w.clientDo idx (requestOf w payload) = .error e →
      FailsAt w idx issue "received error from Trello function: " e 1

/-- Every stage of an invocation succeeds: the secret is read, the interval
parses, the fetch succeeds, and every event is delivered. -/
def AllSucceed (w : World) : Prop :=
  ∃ tok timeInterval issues, secretOf w = .ok tok ∧ intervalOf w = .ok timeInterval ∧
    w.issuesList tok (Handle.since w.now timeInterval) = .ok issues ∧
    ∀ i issue, issues[i]? = some issue → Delivered w i issue

/-- The first stage of an invocation that fails, by its message and error. -/
inductive FirstFailure (w : World) : String → GoError → Prop
  | secret (e : GoError) :
      secretOf w = .error e →
      FirstFailure w "error reading GitHub personal access token: " e
  | interval (tok : String) (e : GoError) :
      secretOf w = .ok tok → intervalOf w = .error e →
      FirstFailure w "error getting timeinterval: " e
  | fetch (tok : String) (timeInterval : Int) (e : GoError) :
      secretOf w = .ok tok → intervalOf w = .ok timeInterval →
      w.issuesList tok (Handle.since w.now timeInterval) = .error e →
      FirstFailure w "error getting new issues from GitHub: " e
  | dispatch (tok : String) (timeInterval : Int) (issues : List (Option Issue)) (k : Nat)
      (issue : Option Issue) (msg : String) (e : GoError) (n : Nat) :
      secretOf w = .ok tok → intervalOf w = .ok timeInterval →
      w.issuesList tok (Handle.since w.now timeInterval) = .ok issues →
      issues[k]? = some issue →
      (∀ i x, i < k → issues[i]? = some x → Delivered w i x) →
      FailsAt w k issue msg e n →
      FirstFailure w msg e

/-- The calls of delivered events: a request construction and a send each. -/
def deliveredTrace (w : World) (issues : List (Option Issue)) : List Action :=
  issues.flatMap fun issue =>
    [.newRequest "POST" (trelloURL w) (payloadOf w issue), .clientDo (requestOf w (payloadOf w issue))]

/-- The transport error of a send, if any; the reply itself is dropped. -/
def transportError : Except GoError HTTPResponse → Option GoError
  | .error e => some e
  | .ok _ => none

/-! ## Integer literals -/

/-- One step of reading a decimal number: shift and add the digit. -/
def decimalStep (n : Nat) (c : Char) : Nat := n * 10 + digitVal c

/-- The number a run of decimal digits denotes, read from the left. -/
def decimalValue (digits : List Char) : Nat := digits.foldl decimalStep 0

/-- The string `s` is the decimal form of the integer `n` that a 64-bit `int`
holds: an optional sign, then one or more decimal digits, whose value with
the sign is `n` and lies between `-2^63` and `2^63 - 1`. -/
def IsIntLiteral (s : String) (n : Int) : Prop :=
  ∃ sign digits : List Char, s.data = sign ++ digits ∧
    (sign = [] ∨ sign = ['+'] ∨ sign = ['-']) ∧ digits ≠ [] ∧
    (∀ c ∈ digits, isDigit c = true) ∧
    n = (if sign = ['-'] then -(decimalValue digits : Int) else (decimalValue digits : Int)) ∧
    -(2 ^ 63) ≤ n ∧ n < 2 ^ 63

/-! ## Sample worlds -/

/-- A world whose secret is mounted in the openfaas folder, whose environment
sets only `interval`, and whose clock reads one thousand seconds. -/
def sampleWorld (interval : String) (issues : List (Option Issue))
    (send : Nat → Except GoError HTTPResponse) : World where
  jsonShortEscapes := true
  readFile := fun p =>
    if p = "/var/openfaas/secrets/github-accesstoken" then .ok "tok"
    else .error ⟨"open " ++ p ++ ": no such file or directory"⟩
  lookupEnv := fun k => if k = "interval" then some interval else none
  now := ⟨1000, 5⟩
  quote := fun s => "\"" ++ s ++ "\""
  issuesList := fun _ _ => .ok issues
  urlParse := fun _ => none
  clientDo := fun n _ => send n

/-- An issue with all three fields the handler reads. -/
def sampleIssue (title repoURL issueURL : String) : Option Issue :=
  some ⟨some title, some issueURL, some ⟨some repoURL⟩⟩

/-- Scenario A: interval 60, one issue, the send succeeds. -/
def worldA : World :=
  sampleWorld "60"
    [sampleIssue "Bug X" "https://github.com/acme/app" "https://github.com/acme/app/issues/5"]
    (fun _ => .ok ⟨200, ""⟩)

/-- Scenario A with a downstream service that answers 500 to every request. -/
def worldA500 : World :=
  { worldA with clientDo := fun _ _ => .ok ⟨500, "card not created"⟩ }

/-- Scenario B: the interval is `abc`. -/
def worldB : World := sampleWorld "abc" [] (fun _ => .ok ⟨200, ""⟩)

/-- Scenario B without a mounted secret. -/
def worldBNoSecret : World :=
  { worldB with readFile := fun p => .error ⟨"open " ++ p ++ ": no such file or directory"⟩ }

/-- Scenario C: three issues, the second send fails at the transport layer. -/
def worldC : World :=
  sampleWorld "60"
    [sampleIssue "one" "https://github.com/acme/app" "https://github.com/acme/app/issues/1",
     sampleIssue "two" "https://github.com/acme/app" "https://github.com/acme/app/issues/2",
     sampleIssue "three" "https://github.com/acme/app" "https://github.com/acme/app/issues/3"]
    (fun n => if n = 1 then .error ⟨"dial tcp: connection refused"⟩ else .ok ⟨200, ""⟩)

/-- Three issues with a configured board, list, gateway and function: the
first complete, the second with a title only, the third a nil pointer; every
send succeeds. -/
def worldThree : World where
  jsonShortEscapes := true
  readFile := fun p =>
    if p = "/var/openfaas/secrets/github-accesstoken" then .ok "tok"
    else .error ⟨"open " ++ p ++ ": no such file or directory"⟩
  lookupEnv := fun k =>
    if k = "interval" then some "30"
    else if k = "trelloboard" then some "Work"
    else if k = "trellolist" then some "Today"
    else if k = "ofgateway" then some "http://gw:8080"
    else if k = "trellofunction" then some "cards"
    else none
  now := ⟨1000, 5⟩
  quote := fun s => "\"" ++ s ++ "\""
  issuesList := fun _ _ =>
    .ok [sampleIssue "one" "https://github.com/acme/app" "https://github.com/acme/app/issues/1",
         some ⟨some "two", none, none⟩,
         none]
  urlParse := fun _ => none
  clientDo := fun _ _ => .ok ⟨200, ""⟩

/-- An interval of 153722868 minutes, the first whose nanoseconds exceed 63 bits. -/
def worldBig : World := sampleWorld "153722868" [] (fun _ => .ok ⟨200, ""⟩)

/-- An interval of minus five minutes. -/
def worldNeg : World := sampleWorld "-5" [] (fun _ => .ok ⟨200, ""⟩)


/-! ## Arithmetic of the checkpoint -/

theorem wrap64_of_range (x : Int) (h1 : -(2 ^ 63) ≤ x) (h2 : x < 2 ^ 63) : wrap64 x = x := by
  unfold wrap64
  have h : (x + 2 ^ 63) % 2 ^ 64 = x + 2 ^ 63 := Int.emod_eq_of_lt (by omega) (by omega)
  omega

theorem Time.unixNano_add (t : Time) (d : Int) : (t.Add d).UnixNano = t.UnixNano + d := by
  have h := Int.tdiv_add_tmod d 1000000000
  unfold Time.Add Time.UnixNano
  simp only []
  split_ifs <;> simp only [] <;> omega

theorem tmod_billion_gt (d : Int) : -1000000000 < Int.tmod d 1000000000 := by
  rcases Int.le_total 0 d with h | h
  · have := Int.tmod_nonneg 1000000000 h
    omega
  · obtain ⟨n, rfl⟩ : ∃ n : Nat, d = -(n : Int) := ⟨d.natAbs, by omega⟩
    have h1 := Int.tmod_def (-(n : Int)) 1000000000
    have h2 := Int.tmod_def (n : Int) 1000000000
    rw [Int.neg_tdiv] at h1
    have := Int.tmod_lt_of_pos (n : Int) (b := 1000000000) (by norm_num)
    omega

theorem Time.valid_add (t : Time) (d : Int) (ht : t.Valid) : (t.Add d).Valid := by
  have h1 : Int.tmod d 1000000000 < 1000000000 := Int.tmod_lt_of_pos d (by norm_num)
  have h2 : -1000000000 < Int.tmod d 1000000000 := tmod_billion_gt d
  unfold Time.Valid at ht ⊢
  unfold Time.Add
  simp only []
  split_ifs <;> simp only [] <;> omega

theorem since_unixNano (now : Time) (timeInterval : Int)
    (h1 : -153722867 ≤ timeInterval) (h2 : timeInterval ≤ 153722867) :
    (Handle.since now timeInterval).UnixNano = now.UnixNano - timeInterval * Minute := by
  unfold Handle.since
  simp only []
  rw [Time.unixNano_add]
  have e1 : wrap64 (timeInterval * Minute) = timeInterval * Minute := by
    apply wrap64_of_range <;> unfold Minute <;> omega
  rw [e1]
  have e2 : wrap64 (-(timeInterval * Minute)) = -(timeInterval * Minute) := by
    apply wrap64_of_range <;> unfold Minute <;> omega
  rw [e2]
  ring


/-! ## Reading traces -/

theorem fetches_append (a b : List Action) : fetches (a ++ b) = fetches a ++ fetches b := by
  induction a with
  | nil => rfl
  | cons x xs ih => cases x <;> simp [fetches, ih]

theorem attempts_append (a b : List Action) : attempts (a ++ b) = attempts a ++ attempts b := by
  induction a with
  | nil => rfl
  | cons x xs ih => cases x <;> simp [attempts, ih]

theorem sends_append (a b : List Action) : sends (a ++ b) = sends a ++ sends b := by
  induction a with
  | nil => rfl
  | cons x xs ih => cases x <;> simp [sends, ih]

theorem marshal_ok (r : TrelloEvent) (shortEscapes : Bool) :
    r.Marshal shortEscapes = .ok (r.encode shortEscapes) := rfl

/-- A delivered event: the pass through the loop body makes its two calls and
does not return. -/
theorem body_of_delivered (w : World) (idx : Nat) (issue : Option Issue)
    (h : Delivered w idx issue) :
    Handle.body w (trelloBoard w) (trelloList w) (trelloURL w) idx issue =
      ([.newRequest "POST" (trelloURL w) (payloadOf w issue),
        .clientDo (requestOf w (payloadOf w issue))], none) := by
  obtain ⟨payload, hm, hu, r, hr⟩ := h
  rw [marshal_ok] at hm
  cases hm
  unfold requestOf at hr
  simp only [Handle.body, marshal_ok, NewRequest, hu, hr, payloadOf, requestOf]

/-- A failing event: the pass returns the step's message and error. -/
theorem body_of_failsAt (w : World) (idx : Nat) (issue : Option Issue) (msg : String)
    (e : GoError) (n : Nat) (h : FailsAt w idx issue msg e n) :
    Handle.body w (trelloBoard w) (trelloList w) (trelloURL w) idx issue =
      (.newRequest "POST" (trelloURL w) (payloadOf w issue) ::
        (List.replicate n (.clientDo (requestOf w (payloadOf w issue)))),
        some (⟨msg ++ e.msg, StatusInternalServerError⟩, e)) := by
  cases h with
  | marshal e hm => rw [marshal_ok] at hm; cases hm
  | request payload e hm hu =>
    simp only [Handle.body, marshal_ok, NewRequest, hu, payloadOf, List.replicate]
  | send payload e hm hu hr =>
    rw [marshal_ok] at hm
    cases hm
    unfold requestOf at hr
    simp only [Handle.body, marshal_ok, NewRequest, hu, hr, payloadOf, requestOf, List.replicate]

/-- Every event is either delivered or fails at one step. -/
theorem delivered_or_failsAt (w : World) (idx : Nat) (issue : Option Issue) :
    Delivered w idx issue ∨ ∃ msg e n, FailsAt w idx issue msg e n := by
  cases hu : w.urlParse (trelloURL w) with
  | some e => exact Or.inr ⟨_, e, _, FailsAt.request _ e (marshal_ok _ _) hu⟩
  | none =>
    cases hr : w.clientDo idx (requestOf w (payloadOf w issue)) with
    | error e => exact Or.inr ⟨_, e, _, FailsAt.send _ e (marshal_ok _ _) hu hr⟩
    | ok r => exact Or.inl ⟨_, marshal_ok _ _, hu, r, hr⟩

/-- The loop over a delivered prefix: its calls, then the loop on the rest. -/
theorem loop_append (w : World) (pre rest : List (Option Issue)) (idx : Nat)
    (h : ∀ i x, pre[i]? = some x → Delivered w (idx + i) x) :
    Handle.loop w (trelloBoard w) (trelloList w) (trelloURL w) idx (pre ++ rest) =
      (deliveredTrace w pre ++
        (Handle.loop w (trelloBoard w) (trelloList w) (trelloURL w) (idx + pre.length) rest).1,
       (Handle.loop w (trelloBoard w) (trelloList w) (trelloURL w) (idx + pre.length) rest).2) := by
  induction pre generalizing idx with
  | nil => simp [deliveredTrace]
  | cons p ps ih =>
    have hp : Delivered w idx p := by simpa using h 0 p (by simp)
    have hps : ∀ i x, ps[i]? = some x → Delivered w (idx + 1 + i) x := by
      intro i x hi
      have := h (i + 1) x (by simpa using hi)
      rwa [show idx + (i + 1) = idx + 1 + i by omega] at this
    have e := ih (idx + 1) hps
    simp only [List.cons_append, Handle.loop, body_of_delivered w idx p hp]
    rw [show ps.append rest = ps ++ rest from rfl, e]
    simp [deliveredTrace, show idx + 1 + ps.length = idx + (ps.length + 1) by omega]

/-- When every event is delivered the loop runs to its end. -/
theorem loop_all_delivered (w : World) (issues : List (Option Issue))
    (h : ∀ i x, issues[i]? = some x → Delivered w i x) :
    Handle.loop w (trelloBoard w) (trelloList w) (trelloURL w) 0 issues =
      (deliveredTrace w issues, none) := by
  have e := loop_append w issues [] 0 (by simpa using h)
  simpa [Handle.loop] using e

/-- When the event at index `k` is the first to fail, the loop returns its
failure after the calls of the first `k` events and of the failing pass. -/
theorem loop_first_failure (w : World) (issues : List (Option Issue)) (k : Nat)
    (issue : Option Issue) (msg : String) (e : GoError) (n : Nat)
    (hk : issues[k]? = some issue)
    (h : ∀ i x, i < k → issues[i]? = some x → Delivered w i x)
    (hf : FailsAt w k issue msg e n) :
    Handle.loop w (trelloBoard w) (trelloList w) (trelloURL w) 0 issues =
      (deliveredTrace w (issues.take k) ++
        (.newRequest "POST" (trelloURL w) (payloadOf w issue) ::
          (List.replicate n (.clientDo (requestOf w (payloadOf w issue))))),
        some (⟨msg ++ e.msg, StatusInternalServerError⟩, e)) := by
  have hlen : k < issues.length := by
    rcases Nat.lt_or_ge k issues.length with h1 | h1
    · exact h1
    · rw [List.getElem?_eq_none h1] at hk; cases hk
  have hsplit : issues = issues.take k ++ issue :: issues.drop (k + 1) := by
    have hx : issues[k] = issue := by
      rw [List.getElem?_eq_getElem hlen] at hk
      exact Option.some.inj hk
    rw [← hx, ← List.drop_eq_getElem_cons hlen, List.take_append_drop]
  have hpre : ∀ i x, (issues.take k)[i]? = some x → Delivered w (0 + i) x := by
    intro i x hi
    rw [List.getElem?_take] at hi
    split_ifs at hi with hik
    · simpa using h i x hik hi
  have e1 := loop_append w (issues.take k) (issue :: issues.drop (k + 1)) 0 hpre
  rw [← hsplit] at e1
  rw [e1]
  have hl : (issues.take k).length = k := by simp; omega
  simp only [hl, Nat.zero_add, Handle.loop, body_of_failsAt w k issue msg e n hf]


/-! ## The stages of `Handle` -/

/-- The calls of the secret stage. -/
theorem secret_trace (w : World) (name : String) :
    fetches (getSecret w name).1 = [] ∧ attempts (getSecret w name).1 = [] ∧
      sends (getSecret w name).1 = [] := by
  unfold getSecret
  cases w.readFile ("/var/openfaas/secrets/" ++ name) <;> simp [fetches, attempts, sends]

theorem deliveredTrace_fetches (w : World) (issues : List (Option Issue)) :
    fetches (deliveredTrace w issues) = [] := by
  induction issues with
  | nil => rfl
  | cons x xs ih => simpa [deliveredTrace, fetches] using ih

theorem deliveredTrace_attempts (w : World) (issues : List (Option Issue)) :
    attempts (deliveredTrace w issues) = issues.map (payloadOf w) := by
  induction issues with
  | nil => rfl
  | cons x xs ih => simpa [deliveredTrace, attempts] using ih

theorem deliveredTrace_sends (w : World) (issues : List (Option Issue)) :
    sends (deliveredTrace w issues) = issues.map fun issue => requestOf w (payloadOf w issue) := by
  induction issues with
  | nil => rfl
  | cons x xs ih => simpa [deliveredTrace, sends] using ih

theorem sends_replicate (r : Request) (n : Nat) :
    sends (List.replicate n (.clientDo r)) = List.replicate n r := by
  induction n with
  | zero => rfl
  | succ n ih => simp [List.replicate, sends, ih]

theorem attempts_replicate (r : Request) (n : Nat) :
    attempts (List.replicate n (.clientDo r)) = [] := by
  induction n with
  | zero => rfl
  | succ n ih => simp [List.replicate, attempts, ih]

theorem fetches_replicate (r : Request) (n : Nat) :
    fetches (List.replicate n (.clientDo r)) = [] := by
  induction n with
  | zero => rfl
  | succ n ih => simp [List.replicate, fetches, ih]

/-- The secret cannot be read: `Handle` returns at once. -/
theorem Handle_of_secret_error (w : World) (req : HandlerRequest) (e : GoError)
    (h : secretOf w = .error e) :
    Handle w req =
      ⟨⟨"error reading GitHub personal access token: " ++ e.msg, StatusInternalServerError⟩,
        some e, (getSecret w "github-accesstoken").1⟩ := by
  unfold secretOf at h
  unfold Handle
  rcases hgs : getSecret w "github-accesstoken" with ⟨tr0, r⟩
  rw [hgs] at h
  simp only at h
  subst h
  rfl

/-- The interval does not parse: `Handle` returns after the secret stage. -/
theorem Handle_of_interval_error (w : World) (req : HandlerRequest) (tok : String) (e : GoError)
    (hs : secretOf w = .ok tok) (hi : intervalOf w = .error e) :
    Handle w req =
      ⟨⟨"error getting timeinterval: " ++ e.msg, StatusInternalServerError⟩,
        some e, (getSecret w "github-accesstoken").1⟩ := by
  unfold secretOf at hs
  unfold intervalOf at hi
  unfold Handle
  rcases hgs : getSecret w "github-accesstoken" with ⟨tr0, r⟩
  rw [hgs] at hs
  simp only at hs
  subst hs
  simp only [hi]

/-- The fetch fails: `Handle` returns after the one call to the GitHub client. -/
theorem Handle_of_fetch_error (w : World) (req : HandlerRequest) (tok : String)
    (timeInterval : Int) (e : GoError)
    (hs : secretOf w = .ok tok) (hi : intervalOf w = .ok timeInterval)
    (hf : w.issuesList tok (Handle.since w.now timeInterval) = .error e) :
    Handle w req =
      ⟨⟨"error getting new issues from GitHub: " ++ e.msg, StatusInternalServerError⟩,
        some e, (getSecret w "github-accesstoken").1 ++
          [.issuesList tok (Handle.since w.now timeInterval)]⟩ := by
  unfold secretOf at hs
  unfold intervalOf at hi
  unfold Handle
  rcases hgs : getSecret w "github-accesstoken" with ⟨tr0, r⟩
  rw [hgs] at hs
  simp only at hs
  subst hs
  simp only [hi, hf]

/-- The fetch succeeds and every event is delivered: `Handle` reports the count. -/
theorem Handle_of_all_delivered (w : World) (req : HandlerRequest) (tok : String)
    (timeInterval : Int) (issues : List (Option Issue))
    (hs : secretOf w = .ok tok) (hi : intervalOf w = .ok timeInterval)
    (hf : w.issuesList tok (Handle.since w.now timeInterval) = .ok issues)
    (hd : ∀ i x, issues[i]? = some x → Delivered w i x) :
    Handle w req =
      ⟨⟨"found a total of " ++ toString issues.length ++ " new issues", StatusOK⟩, none,
        (getSecret w "github-accesstoken").1 ++
          [.issuesList tok (Handle.since w.now timeInterval)] ++ deliveredTrace w issues⟩ := by
  unfold secretOf at hs
  unfold intervalOf at hi
  unfold Handle
  rcases hgs : getSecret w "github-accesstoken" with ⟨tr0, r⟩
  rw [hgs] at hs
  simp only at hs
  subst hs
  simp only [hi, hf, loop_all_delivered w issues hd]

/-- The fetch succeeds and the event at index `k` is the first to fail:
`Handle` returns that failure. -/
theorem Handle_of_first_failure (w : World) (req : HandlerRequest) (tok : String)
    (timeInterval : Int) (issues : List (Option Issue)) (k : Nat) (issue : Option Issue)
    (msg : String) (e : GoError) (n : Nat)
    (hs : secretOf w = .ok tok) (hi : intervalOf w = .ok timeInterval)
    (hf : w.issuesList tok (Handle.since w.now timeInterval) = .ok issues)
    (hk : issues[k]? = some issue)
    (hd : ∀ i x, i < k → issues[i]? = some x → Delivered w i x)
    (hfail : FailsAt w k issue msg e n) :
    Handle w req =
      ⟨⟨msg ++ e.msg, StatusInternalServerError⟩, some e,
        (getSecret w "github-accesstoken").1 ++
          [.issuesList tok (Handle.since w.now timeInterval)] ++
          (deliveredTrace w (issues.take k) ++
            (.newRequest "POST" (trelloURL w) (payloadOf w issue) ::
              (List.replicate n (.clientDo (requestOf w (payloadOf w issue))))))⟩ := by
  unfold secretOf at hs
  unfold intervalOf at hi
  unfold Handle
  rcases hgs : getSecret w "github-accesstoken" with ⟨tr0, r⟩
  rw [hgs] at hs
  simp only at hs
  subst hs
  simp only [hi, hf, loop_first_failure w issues k issue msg e n hk hd hfail]

/-- For a fetched list, either every event is delivered or some event is the
first to fail. -/
theorem all_delivered_or_first_failure (w : World) (issues : List (Option Issue)) :
    (∀ i x, issues[i]? = some x → Delivered w i x) ∨
      ∃ k x msg e n, issues[k]? = some x ∧
        (∀ i y, i < k → issues[i]? = some y → Delivered w i y) ∧ FailsAt w k x msg e n := by
  by_cases hall : ∀ i x, issues[i]? = some x → Delivered w i x
  · exact Or.inl hall
  · right
    have hex : ∃ k, ∃ x, issues[k]? = some x ∧ ¬ Delivered w k x := by
      by_contra hne
      apply hall
      intro i x hix
      by_contra hnd
      exact hne ⟨i, x, hix, hnd⟩
    classical
    obtain ⟨x, hkx, hnd⟩ := Nat.find_spec hex
    have hmin : ∀ i y, i < Nat.find hex → issues[i]? = some y → Delivered w i y := by
      intro i y hik hiy
      by_contra hnd2
      exact Nat.find_min hex hik ⟨y, hiy, hnd2⟩
    rcases delivered_or_failsAt w (Nat.find hex) x with hdel | ⟨msg, e, n, hfa⟩
    · exact absurd hdel hnd
    · exact ⟨Nat.find hex, x, msg, e, n, hkx, hmin, hfa⟩

/-- Every world either has all stages succeed or has a first failing stage. -/
theorem allSucceed_or_firstFailure (w : World) :
    AllSucceed w ∨ ∃ msg e, FirstFailure w msg e := by
  cases hs : secretOf w with
  | error e => exact Or.inr ⟨_, e, FirstFailure.secret e hs⟩
  | ok tok =>
    cases hi : intervalOf w with
    | error e => exact Or.inr ⟨_, e, FirstFailure.interval tok e hs hi⟩
    | ok timeInterval =>
      cases hf : w.issuesList tok (Handle.since w.now timeInterval) with
      | error e => exact Or.inr ⟨_, e, FirstFailure.fetch tok timeInterval e hs hi hf⟩
      | ok issues =>
        rcases all_delivered_or_first_failure w issues with hd | ⟨k, x, msg, e, n, hk, hd, hfa⟩
        · exact Or.inl ⟨tok, timeInterval, issues, hs, hi, hf, hd⟩
        · exact Or.inr ⟨msg, e,
            FirstFailure.dispatch tok timeInterval issues k x msg e n hs hi hf hk hd hfa⟩

/-- Whatever stage fails first, `Handle` returns its message and error with
status 500. -/
theorem Handle_of_firstFailure (w : World) (req : HandlerRequest) (msg : String) (e : GoError)
    (h : FirstFailure w msg e) :
    (Handle w req).resp = ⟨msg ++ e.msg, StatusInternalServerError⟩ ∧
      (Handle w req).err = some e := by
  cases h with
  | secret e hs => rw [Handle_of_secret_error w req e hs]; exact ⟨rfl, rfl⟩
  | interval tok e hs hi => rw [Handle_of_interval_error w req tok e hs hi]; exact ⟨rfl, rfl⟩
  | fetch tok ti e hs hi hf => rw [Handle_of_fetch_error w req tok ti e hs hi hf]; exact ⟨rfl, rfl⟩
  | dispatch tok ti issues k issue msg e n hs hi hf hk hd hfa =>
    rw [Handle_of_first_failure w req tok ti issues k issue msg e n hs hi hf hk hd hfa]
    exact ⟨rfl, rfl⟩

/-- When all stages succeed `Handle` returns status 200 and no error. -/
theorem Handle_of_allSucceed (w : World) (req : HandlerRequest) (h : AllSucceed w) :
    (Handle w req).resp.StatusCode = StatusOK ∧ (Handle w req).err = none := by
  obtain ⟨tok, ti, issues, hs, hi, hf, hd⟩ := h
  rw [Handle_of_all_delivered w req tok ti issues hs hi hf hd]
  exact ⟨rfl, rfl⟩


/-- A failing pass sends at most one request. -/
theorem failsAt_sends_le (w : World) (idx : Nat) (issue : Option Issue) (msg : String)
    (e : GoError) (n : Nat) (h : FailsAt w idx issue msg e n) : n = 0 ∨ n = 1 := by
  cases h <;> simp

/-- The first `k` elements followed by `n ≤ 1` copies of the element at `k`. -/
theorem take_add_replicate {α β : Type} (f : α → β) (l : List α) (k n : Nat) (x : α)
    (hk : l[k]? = some x) (hn : n = 0 ∨ n = 1) :
    (l.take k).map f ++ List.replicate n (f x) = (l.take (k + n)).map f := by
  rcases hn with rfl | rfl
  · simp
  · rw [List.take_succ, hk]
    simp


/-! ## The dispatch loop -/

/-- C1 (strict abort): when the fetch returned `issues`, the events at indices
below `k` are delivered and the event at index `k` fails at some step with
error `e`, `Handle` returns status 500 with the message of the failing step
followed by the text of `e`, and the error `e`; for a send failure the body is
`received error from Trello function: ` followed by that text. The dispatch
attempts are exactly those of issues `0..k` in fetch order, the requests that
reach the network are those of issues `0..k-1` (and of issue `k` when it is the
send that fails): nothing is attempted after `k`. An attempt is counted at the
call of `http.NewRequest`, which every pass reaches because `json.Marshal` has
no failing case on a `TrelloEvent`. -/
theorem Handle_strict_abort (w : World) (req : HandlerRequest) (tok : String)
    (timeInterval : Int) (issues : List (Option Issue)) (k : Nat) (issue : Option Issue)
    (msg : String) (e : GoError) (n : Nat)
    (hs : secretOf w = .ok tok) (hi : intervalOf w = .ok timeInterval)
    (hf : w.issuesList tok (Handle.since w.now timeInterval) = .ok issues)
    (hk : issues[k]? = some issue)
    (hd : ∀ i x, i < k → issues[i]? = some x → Delivered w i x)
    (hfail : FailsAt w k issue msg e n) :
    (Handle w req).resp = ⟨msg ++ e.msg, StatusInternalServerError⟩ ∧
      (Handle w req).err = some e ∧
      (w.urlParse (trelloURL w) = none →
        (Handle w req).resp.Body = "received error from Trello function: " ++ e.msg) ∧
      attempts (Handle w req).trace = (issues.take (k + 1)).map (payloadOf w) ∧
      sends (Handle w req).trace =
        (issues.take (k + n)).map (fun x => requestOf w (payloadOf w x)) := by
  have hH := Handle_of_first_failure w req tok timeInterval issues k issue msg e n hs hi hf hk hd
    hfail
  obtain ⟨_, hsa, hss⟩ := secret_trace w "github-accesstoken"
  refine ⟨by rw [hH], by rw [hH], ?_, ?_, ?_⟩
  · intro hu
    rw [hH]
    cases hfail with
    | marshal e hm => rw [marshal_ok] at hm; cases hm
    | request payload e hm hu2 => rw [hu] at hu2; cases hu2
    | send payload e hm hu2 hr => rfl
  · rw [hH]
    simp only [attempts_append, hsa, attempts, deliveredTrace_attempts, attempts_replicate,
      List.nil_append, List.append_nil]
    have := take_add_replicate (payloadOf w) issues k 1 issue hk (Or.inr rfl)
    simpa using this
  · rw [hH]
    simp only [sends_append, hss, sends, deliveredTrace_sends, sends_replicate,
      List.nil_append]
    exact take_add_replicate (fun x => requestOf w (payloadOf w x)) issues k n issue hk
      (failsAt_sends_le w k issue msg e n hfail)

/-- Scenario C: three issues, the second send fails; the run reports that send
error, two events were attempted and sent, the third never. -/
theorem Handle_strict_abort_witness :
    (Handle worldC ⟨""⟩).resp =
        ⟨"received error from Trello function: " ++ "dial tcp: connection refused",
          StatusInternalServerError⟩ ∧
      (Handle worldC ⟨""⟩).err = some ⟨"dial tcp: connection refused"⟩ ∧
      (worldC.urlParse (trelloURL worldC) = none →
        (Handle worldC ⟨""⟩).resp.Body =
          "received error from Trello function: " ++ "dial tcp: connection refused") ∧
      attempts (Handle worldC ⟨""⟩).trace =
        (List.take (1 + 1)
          [sampleIssue "one" "https://github.com/acme/app" "https://github.com/acme/app/issues/1",
           sampleIssue "two" "https://github.com/acme/app" "https://github.com/acme/app/issues/2",
           sampleIssue "three" "https://github.com/acme/app"
             "https://github.com/acme/app/issues/3"]).map (payloadOf worldC) ∧
      sends (Handle worldC ⟨""⟩).trace =
        (List.take (1 + 1)
          [sampleIssue "one" "https://github.com/acme/app" "https://github.com/acme/app/issues/1",
           sampleIssue "two" "https://github.com/acme/app" "https://github.com/acme/app/issues/2",
           sampleIssue "three" "https://github.com/acme/app"
             "https://github.com/acme/app/issues/3"]).map
          (fun x => requestOf worldC (payloadOf worldC x)) :=
  Handle_strict_abort worldC ⟨""⟩ "tok" 60 _ 1
    (sampleIssue "two" "https://github.com/acme/app" "https://github.com/acme/app/issues/2")
    "received error from Trello function: " ⟨"dial tcp: connection refused"⟩ 1
    rfl rfl rfl rfl
    (by
      intro i x hi hx
      obtain rfl : i = 0 := by omega
      obtain rfl : sampleIssue "one" "https://github.com/acme/app"
          "https://github.com/acme/app/issues/1" = x := by simpa using hx
      exact ⟨_, rfl, rfl, ⟨200, ""⟩, rfl⟩)
    (FailsAt.send _ _ rfl rfl rfl)

/-- A setting is the value of the environment when it is set, the fallback
otherwise. -/
theorem getEnvKey_eq (w : World) (key fallback : String) :
    getEnvKey w key fallback = (w.lookupEnv key).getD fallback := by
  unfold getEnvKey
  cases w.lookupEnv key <;> rfl

/-- The event of the loop body, written on the fields of the issue record. -/
theorem event_eq (trelloBoard trelloList : String) (issue : Option Issue) :
    Handle.event trelloBoard trelloList issue =
      ⟨⟨(issue.bind Issue.Title).getD "",
        "Repository: " ++ ((issue.bind Issue.Repository).bind Repository.HTMLURL).getD "" ++
          "\nDirect link: " ++ (issue.bind Issue.HTMLURL).getD ""⟩,
       some ⟨some trelloBoard, some trelloList⟩⟩ := by
  rcases issue with _ | ⟨_ | t, _ | u, _ | ⟨_ | ru⟩⟩ <;> rfl

/-- The request of an issue, written on the environment and the issue record. -/
theorem requestOf_payloadOf (w : World) (issue : Option Issue) :
    requestOf w (payloadOf w issue) =
      ⟨"POST",
        (w.lookupEnv "ofgateway").getD "http://gateway.openfaas:8080" ++ "/function/" ++
          (w.lookupEnv "trellofunction").getD "trellocard",
        TrelloEvent.encode
          ⟨⟨(issue.bind Issue.Title).getD "",
            "Repository: " ++ ((issue.bind Issue.Repository).bind Repository.HTMLURL).getD "" ++
              "\nDirect link: " ++ (issue.bind Issue.HTMLURL).getD ""⟩,
           some ⟨some ((w.lookupEnv "trelloboard").getD "Main"),
                 some ((w.lookupEnv "trellolist").getD "Tomorrow")⟩⟩
          w.jsonShortEscapes⟩ := by
  simp only [requestOf, payloadOf, trelloURL, trelloBoard, trelloList, getEnvKey_eq, event_eq]

/-- C2 (one event per issue): when the fetch returned `issues` and every event
is delivered, the requests sent are, in fetch order, one per issue: a `POST`
to `<ofgateway>/function/<trellofunction>` (environment values, with the
defaults `http://gateway.openfaas:8080` and `trellocard`) whose body is the
marshalled event with the title of the issue, the description made of its
repository URL and its own URL, and the board and list read from the
environment (`trelloboard`, default `Main`; `trellolist`, default
`Tomorrow`), the same for every event. There are exactly as many requests as
issues, the attempts carry the same payloads in the same order, and an empty
list gives no request and no attempt. -/
theorem Handle_dispatches_each_issue (w : World) (req : HandlerRequest) (tok : String)
    (timeInterval : Int) (issues : List (Option Issue))
    (hs : secretOf w = .ok tok) (hi : intervalOf w = .ok timeInterval)
    (hf : w.issuesList tok (Handle.since w.now timeInterval) = .ok issues)
    (hd : ∀ i x, issues[i]? = some x → Delivered w i x) :
    sends (Handle w req).trace =
        issues.map (fun issue =>
          (⟨"POST",
            (w.lookupEnv "ofgateway").getD "http://gateway.openfaas:8080" ++ "/function/" ++
              (w.lookupEnv "trellofunction").getD "trellocard",
            TrelloEvent.encode
              ⟨⟨(issue.bind Issue.Title).getD "",
                "Repository: " ++
                  ((issue.bind Issue.Repository).bind Repository.HTMLURL).getD "" ++
                  "\nDirect link: " ++ (issue.bind Issue.HTMLURL).getD ""⟩,
               some ⟨some ((w.lookupEnv "trelloboard").getD "Main"),
                     some ((w.lookupEnv "trellolist").getD "Tomorrow")⟩⟩
              w.jsonShortEscapes⟩ : Request)) ∧
      (sends (Handle w req).trace).length = issues.length ∧
      attempts (Handle w req).trace = (sends (Handle w req).trace).map Request.Body ∧
      (∀ r ∈ sends (Handle w req).trace, r.Method = "POST") ∧
      (issues = [] → sends (Handle w req).trace = [] ∧ attempts (Handle w req).trace = []) := by
  have hH := Handle_of_all_delivered w req tok timeInterval issues hs hi hf hd
  obtain ⟨_, hsa, hss⟩ := secret_trace w "github-accesstoken"
  have h0 : sends (Handle w req).trace =
      issues.map (fun issue => requestOf w (payloadOf w issue)) := by
    rw [hH]
    simp only [sends_append, hss, sends, deliveredTrace_sends, List.nil_append]
  have h2 : attempts (Handle w req).trace = issues.map (payloadOf w) := by
    rw [hH]
    simp only [attempts_append, hsa, attempts, deliveredTrace_attempts, List.nil_append]
  have h1 := h0
  simp only [requestOf_payloadOf] at h1
  refine ⟨h1, by rw [h1, List.length_map], ?_, ?_, ?_⟩
  · rw [h2, h0, List.map_map]
    rfl
  · intro r hr
    rw [h0] at hr
    obtain ⟨issue, -, rfl⟩ := List.mem_map.mp hr
    rfl
  · intro hnil
    rw [h0, h2, hnil]
    exact ⟨rfl, rfl⟩

/-- Three issues under a configured board, list and endpoint: three requests
in fetch order, the second and third with empty strings for the absent
fields. -/
theorem Handle_dispatches_each_issue_witness :
    sends (Handle worldThree ⟨""⟩).trace =
        [⟨"POST", "http://gw:8080/function/cards",
          "\x7b\"card\":\x7b\"title\":\"one\",\"description\":\"Repository: " ++
            "https://github.com/acme/app\\nDirect link: " ++
            "https://github.com/acme/app/issues/1\"\x7d," ++
            "\"config\":\x7b\"board\":\"Work\",\"list\":\"Today\"\x7d\x7d"⟩,
         ⟨"POST", "http://gw:8080/function/cards",
          "\x7b\"card\":\x7b\"title\":\"two\",\"description\":\"Repository: " ++
            "\\nDirect link: \"\x7d," ++
            "\"config\":\x7b\"board\":\"Work\",\"list\":\"Today\"\x7d\x7d"⟩,
         ⟨"POST", "http://gw:8080/function/cards",
          "\x7b\"card\":\x7b\"title\":\"\",\"description\":\"Repository: " ++
            "\\nDirect link: \"\x7d," ++
            "\"config\":\x7b\"board\":\"Work\",\"list\":\"Today\"\x7d\x7d"⟩] ∧
      (sends (Handle worldThree ⟨""⟩).trace).length = 3 :=
  have h := Handle_dispatches_each_issue worldThree ⟨""⟩ "tok" 30
    [sampleIssue "one" "https://github.com/acme/app" "https://github.com/acme/app/issues/1",
     some ⟨some "two", none, none⟩, none]
    rfl rfl rfl (fun _ _ _ => ⟨_, rfl, rfl, ⟨200, ""⟩, rfl⟩)
  ⟨h.1.trans rfl, h.2.1⟩


/-! ## The response -/

/-- C6 (success reports the count): when `Handle` returns a nil error, the
secret was read, the interval parsed and the fetch returned some list
`issues`; the response is status 200 with the body
`found a total of N new issues`, `N` the length of that list; and `N` is the
number attempted: the run made exactly `N` attempts and sent exactly `N`
requests, those of the issues in fetch order. When the fetch returns the empty
list the run succeeds with the body `found a total of 0 new issues` and
nothing is dispatched. -/
theorem Handle_success_reports_count (w : World) (req : HandlerRequest) :
    ((Handle w req).err = none →
      ∃ tok timeInterval issues, secretOf w = .ok tok ∧ intervalOf w = .ok timeInterval ∧
        w.issuesList tok (Handle.since w.now timeInterval) = .ok issues ∧
        (Handle w req).resp =
          ⟨"found a total of " ++ toString issues.length ++ " new issues", 200⟩ ∧
        (attempts (Handle w req).trace).length = issues.length ∧
        (sends (Handle w req).trace).length = issues.length ∧
        attempts (Handle w req).trace = issues.map (payloadOf w) ∧
        sends (Handle w req).trace = issues.map (fun x => requestOf w (payloadOf w x))) ∧
    (∀ tok timeInterval, secretOf w = .ok tok → intervalOf w = .ok timeInterval →
      w.issuesList tok (Handle.since w.now timeInterval) = .ok [] →
        (Handle w req).resp = ⟨"found a total of 0 new issues", 200⟩ ∧
        (Handle w req).err = none ∧ attempts (Handle w req).trace = [] ∧
        sends (Handle w req).trace = []) := by
  obtain ⟨_, hsa, hss⟩ := secret_trace w "github-accesstoken"
  constructor
  · intro hnone
    rcases allSucceed_or_firstFailure w with hall | ⟨msg, e, hff⟩
    · obtain ⟨tok, ti, issues, hs, hi, hf, hd⟩ := hall
      have hH := Handle_of_all_delivered w req tok ti issues hs hi hf hd
      have ha : attempts (Handle w req).trace = issues.map (payloadOf w) := by
        rw [hH]
        simp only [attempts_append, hsa, attempts, deliveredTrace_attempts, List.nil_append]
      have hsd : sends (Handle w req).trace =
          issues.map (fun x => requestOf w (payloadOf w x)) := by
        rw [hH]
        simp only [sends_append, hss, sends, deliveredTrace_sends, List.nil_append]
      refine ⟨tok, ti, issues, hs, hi, hf, ?_, ?_, ?_, ha, hsd⟩
      · rw [hH]
        rfl
      · rw [ha, List.length_map]
      · rw [hsd, List.length_map]
    · rw [(Handle_of_firstFailure w req msg e hff).2] at hnone
      cases hnone
  · intro tok ti hs hi hf
    have hd : ∀ i x, ([] : List (Option Issue))[i]? = some x → Delivered w i x := by
      intro i x hx
      simp at hx
    rw [Handle_of_all_delivered w req tok ti [] hs hi hf hd]
    simp only [attempts_append, sends_append, hsa, hss, attempts, sends, deliveredTrace,
      List.flatMap_nil, List.append_nil, and_true]
    rfl

/-- C8 (status): `Handle` returns status 200 with a nil error exactly when
every stage succeeds; otherwise some stage is the first to fail, and whichever
it is, the status is 500, the error is that stage's error and the body is the
stage's message followed by the error's text. Nothing is retried: the issues
are fetched at most once, and the requests sent are an initial segment of the
one-request-per-issue sequence. -/
theorem Handle_status (w : World) (req : HandlerRequest) :
    (((Handle w req).resp.StatusCode = 200 ∧ (Handle w req).err = none) ↔ AllSucceed w) ∧
    (¬ AllSucceed w → ∃ msg e, FirstFailure w msg e) ∧
    (∀ msg e, FirstFailure w msg e →
      (Handle w req).resp = ⟨msg ++ e.msg, 500⟩ ∧ (Handle w req).err = some e) ∧
    (fetches (Handle w req).trace).length ≤ 1 ∧
    (∀ tok timeInterval issues, secretOf w = .ok tok → intervalOf w = .ok timeInterval →
      w.issuesList tok (Handle.since w.now timeInterval) = .ok issues →
      sends (Handle w req).trace <+: issues.map (fun x => requestOf w (payloadOf w x))) := by
  obtain ⟨hsf, hsa, hss⟩ := secret_trace w "github-accesstoken"
  refine ⟨⟨?_, Handle_of_allSucceed w req⟩, ?_, Handle_of_firstFailure w req, ?_, ?_⟩
  · rintro ⟨-, hnone⟩
    rcases allSucceed_or_firstFailure w with hall | ⟨msg, e, hff⟩
    · exact hall
    · rw [(Handle_of_firstFailure w req msg e hff).2] at hnone
      cases hnone
  · intro hnot
    rcases allSucceed_or_firstFailure w with hall | hff
    · exact absurd hall hnot
    · exact hff
  · cases hs : secretOf w with
    | error e => rw [Handle_of_secret_error w req e hs]; simp [hsf]
    | ok tok =>
      cases hi : intervalOf w with
      | error e => rw [Handle_of_interval_error w req tok e hs hi]; simp [hsf]
      | ok ti =>
        cases hf : w.issuesList tok (Handle.since w.now ti) with
        | error e =>
          rw [Handle_of_fetch_error w req tok ti e hs hi hf]
          simp [fetches_append, hsf, fetches]
        | ok issues =>
          rcases all_delivered_or_first_failure w issues with hd | ⟨k, x, msg, e, n, hk, hd, hfa⟩
          · rw [Handle_of_all_delivered w req tok ti issues hs hi hf hd]
            simp [fetches_append, hsf, fetches, deliveredTrace_fetches]
          · rw [Handle_of_first_failure w req tok ti issues k x msg e n hs hi hf hk hd hfa]
            simp [fetches_append, hsf, fetches, deliveredTrace_fetches, fetches_replicate]
  · intro tok ti issues hs hi hf
    rcases all_delivered_or_first_failure w issues with hd | ⟨k, x, msg, e, n, hk, hd, hfa⟩
    · rw [Handle_of_all_delivered w req tok ti issues hs hi hf hd]
      simp only [sends_append, hss, sends, deliveredTrace_sends, List.nil_append]
      exact List.prefix_refl _
    · rw [Handle_of_first_failure w req tok ti issues k x msg e n hs hi hf hk hd hfa]
      simp only [sends_append, hss, sends, deliveredTrace_sends, sends_replicate,
        List.nil_append]
      rw [take_add_replicate (fun x => requestOf w (payloadOf w x)) issues k n x hk
        (failsAt_sends_le w k x msg e n hfa)]
      exact List.IsPrefix.map _ (List.take_prefix _ _)


/-! ## The downstream reply -/

/-- A pass through the loop body depends on the send only through its
transport error. -/
theorem body_congr_reply (w : World) (clientDo2 : Nat → Request → Except GoError HTTPResponse)
    (h : ∀ n r, transportError (clientDo2 n r) = transportError (w.clientDo n r))
    (b l url : String) (idx : Nat) (issue : Option Issue) :
    Handle.body { w with clientDo := clientDo2 } b l url idx issue =
      Handle.body w b l url idx issue := by
  simp only [Handle.body, marshal_ok, NewRequest]
  cases hu : w.urlParse url with
  | some e => rfl
  | none =>
    simp only []
    have hr := h idx ⟨"POST", url, (Handle.event b l issue).encode w.jsonShortEscapes⟩
    cases h1 : clientDo2 idx ⟨"POST", url, (Handle.event b l issue).encode w.jsonShortEscapes⟩ with
    | error e1 =>
      cases h2 : w.clientDo idx ⟨"POST", url, (Handle.event b l issue).encode w.jsonShortEscapes⟩ with
      | error e2 =>
        rw [h1, h2] at hr
        simp only [transportError, Option.some.injEq] at hr
        subst hr
        rfl
      | ok r2 => rw [h1, h2] at hr; simp [transportError] at hr
    | ok r1 =>
      cases h2 : w.clientDo idx ⟨"POST", url, (Handle.event b l issue).encode w.jsonShortEscapes⟩ with
      | error e2 => rw [h1, h2] at hr; simp [transportError] at hr
      | ok r2 => rfl

theorem loop_congr_reply (w : World) (clientDo2 : Nat → Request → Except GoError HTTPResponse)
    (h : ∀ n r, transportError (clientDo2 n r) = transportError (w.clientDo n r))
    (b l url : String) (idx : Nat) (issues : List (Option Issue)) :
    Handle.loop { w with clientDo := clientDo2 } b l url idx issues =
      Handle.loop w b l url idx issues := by
  induction issues generalizing idx with
  | nil => rfl
  | cons x xs ih =>
    simp only [Handle.loop, body_congr_reply w clientDo2 h, ih]

/-- C9 (the reply is not inspected): two worlds that agree on everything but
the replies of the downstream service, and agree on which sends return a
transport error and on that error, give the same run of `Handle`: the same
response, the same error and the same calls, so the same events dispatched. -/
theorem Handle_ignores_reply (w : World)
    (clientDo2 : Nat → Request → Except GoError HTTPResponse) (req : HandlerRequest)
    (h : ∀ n r, transportError (clientDo2 n r) = transportError (w.clientDo n r)) :
    Handle { w with clientDo := clientDo2 } req = Handle w req := by
  unfold Handle
  simp only [trelloBoard, trelloList, trelloURL, getEnvKey, getSecret,
    loop_congr_reply w clientDo2 h]

/-- Scenario A with a downstream service answering 500 instead of 200: the run
is the same. -/
theorem Handle_ignores_reply_witness : Handle worldA500 ⟨""⟩ = Handle worldA ⟨""⟩ :=
  Handle_ignores_reply worldA (fun _ _ => .ok ⟨500, "card not created"⟩) ⟨""⟩
    (fun _ _ => rfl)


/-! ## The event and its wire form -/

theorem hexVal_hexDigit (k : Nat) (hk : k < 16) : hexVal (hexDigit k) = some k := by
  interval_cases k <;> rfl

theorem jsonReadBody_plain (c : Char) (t v r : List Char) (h : jsonReadBody t = some (v, r))
    (h1 : c ≠ '"') (h2 : c ≠ '\\') (h3 : ¬ c.toNat < 32) :
    jsonReadBody (c :: t) = some (c :: v, r) := by
  rw [jsonReadBody.eq_def]
  simp only [h1, h2, h3, if_false, h]

theorem jsonReadBody_simple (e x : Char) (t v r : List Char) (h : jsonReadBody t = some (v, r))
    (h1 : e ≠ 'u') (h2 : simpleEscape e = some x) :
    jsonReadBody ('\\' :: e :: t) = some (x :: v, r) := by
  rw [jsonReadBody.eq_def]
  simp only [show ('\\' : Char) ≠ '"' by decide, if_false, if_true, h1, h2, h]

theorem jsonReadBody_hex (h1 h2 h3 h4 : Char) (a b c d : Nat) (t v r : List Char)
    (h : jsonReadBody t = some (v, r))
    (ha : hexVal h1 = some a) (hb : hexVal h2 = some b) (hc : hexVal h3 = some c)
    (hd : hexVal h4 = some d)
    (hs : ¬ (0xD800 ≤ ((a * 16 + b) * 16 + c) * 16 + d ∧
      ((a * 16 + b) * 16 + c) * 16 + d ≤ 0xDFFF)) :
    jsonReadBody ('\\' :: 'u' :: h1 :: h2 :: h3 :: h4 :: t) =
      some (Char.ofNat (((a * 16 + b) * 16 + c) * 16 + d) :: v, r) := by
  rw [jsonReadBody.eq_def]
  simp only [show ('\\' : Char) ≠ '"' by decide, if_false, if_true, ha, hb, hc, hd, h, hs]

/-- Reading back what the encoder wrote for one character yields that character. -/
theorem jsonReadBody_escapeChar (shortEscapes : Bool) (c : Char) (t v r : List Char)
    (h : jsonReadBody t = some (v, r)) :
    jsonReadBody (escapeChar shortEscapes c ++ t) = some (c :: v, r) := by
  unfold escapeChar
  by_cases hlt : c.toNat < 128
  · simp only [hlt, if_true]
    by_cases hsafe : htmlSafe c = true
    · simp only [hsafe, if_true, List.singleton_append]
      simp only [htmlSafe, Bool.and_eq_true, decide_eq_true_eq, Bool.not_eq_true',
        Bool.or_eq_false_iff, decide_eq_false_iff_not] at hsafe
      exact jsonReadBody_plain c t v r h hsafe.2.1.1.1.1 hsafe.2.2 (by omega)
    · simp only [hsafe, Bool.false_eq_true, if_false]
      by_cases hq : c = '\\' ∨ c = '"'
      · simp only [hq, if_true]
        rcases hq with rfl | rfl
        · exact jsonReadBody_simple _ _ t v r h (by decide) rfl
        · exact jsonReadBody_simple _ _ t v r h (by decide) rfl
      · simp only [hq, if_false]
        by_cases hb : shortEscapes = true ∧ c.toNat = 8
        · simp only [hb, and_self, if_true]
          have hc : c = Char.ofNat 8 := by rw [← Char.ofNat_toNat c, hb.2]
          subst hc
          exact jsonReadBody_simple _ _ t v r h (by decide) rfl
        · simp only [hb, if_false]
          by_cases hf : shortEscapes = true ∧ c.toNat = 12
          · simp only [hf, and_self, if_true]
            have hc : c = Char.ofNat 12 := by rw [← Char.ofNat_toNat c, hf.2]
            subst hc
            exact jsonReadBody_simple _ _ t v r h (by decide) rfl
          · simp only [hf, if_false]
            by_cases hn : c = '\n'
            · subst hn
              exact jsonReadBody_simple _ _ t v r h (by decide) rfl
            · simp only [hn, if_false]
              by_cases hr : c = '\r'
              · subst hr
                exact jsonReadBody_simple _ _ t v r h (by decide) rfl
              · simp only [hr, if_false]
                by_cases ht : c = '\t'
                · subst ht
                  exact jsonReadBody_simple _ _ t v r h (by decide) rfl
                · simp only [ht, if_false]
                  have e := jsonReadBody_hex '0' '0' (hexDigit (c.toNat / 16))
                    (hexDigit (c.toNat % 16)) 0 0 (c.toNat / 16) (c.toNat % 16) t v r h rfl rfl
                    (hexVal_hexDigit _ (by omega)) (hexVal_hexDigit _ (by omega)) (by omega)
                  have hval :
                      ((0 * 16 + 0) * 16 + c.toNat / 16) * 16 + c.toNat % 16 = c.toNat := by
                    omega
                  rw [hval, Char.ofNat_toNat] at e
                  exact e
  · simp only [hlt, if_false]
    by_cases hsep : c.toNat = 0x2028 ∨ c.toNat = 0x2029
    · simp only [hsep, if_true]
      have e := jsonReadBody_hex '2' '0' '2' (hexDigit (c.toNat % 16)) 2 0 2 (c.toNat % 16)
        t v r h rfl rfl rfl (hexVal_hexDigit _ (by omega)) (by omega)
      have hval : ((2 * 16 + 0) * 16 + 2) * 16 + c.toNat % 16 = c.toNat := by
        rcases hsep with h1 | h1 <;> rw [h1]
      rw [hval, Char.ofNat_toNat] at e
      exact e
    · simp only [hsep, if_false, List.singleton_append]
      refine jsonReadBody_plain c t v r h ?_ ?_ (by omega)
      · rintro rfl; exact hlt (by decide)
      · rintro rfl; exact hlt (by decide)

/-- Reading back an encoded string body up to its closing quote. -/
theorem jsonReadBody_flatMap (shortEscapes : Bool) (cs tail : List Char) :
    jsonReadBody (cs.flatMap (escapeChar shortEscapes) ++ '"' :: tail) = some (cs, tail) := by
  induction cs with
  | nil => rw [List.flatMap_nil, List.nil_append, jsonReadBody.eq_def]; simp only [if_true]
  | cons c cs ih =>
    rw [List.flatMap_cons, List.append_assoc]
    exact jsonReadBody_escapeChar shortEscapes c _ cs tail ih

/-- The characters of an encoded string: the escaped characters between two
double quotes. -/
theorem encodeString_data (shortEscapes : Bool) (x : String) :
    (encodeString shortEscapes x).data =
      '"' :: (x.data.flatMap (escapeChar shortEscapes) ++ ['"']) := by
  simp [encodeString, String.data_append]

/-- The encoding of a string is a JSON string literal that denotes the string. -/
theorem jsonStringValue_encodeString (shortEscapes : Bool) (x : String) :
    jsonStringValue (encodeString shortEscapes x) = some x := by
  unfold jsonStringValue
  rw [encodeString_data]
  simp only [if_true, jsonReadBody_flatMap]

/-- A character outside the control range and the escaped set is written as it is. -/
theorem escapeChar_plain (shortEscapes : Bool) (c : Char)
    (h : 32 ≤ c.toNat ∧ c.toNat ∉ [34, 38, 60, 62, 92, 0x2028, 0x2029]) :
    escapeChar shortEscapes c = [c] := by
  obtain ⟨h32, hne⟩ := h
  simp only [List.mem_cons, List.mem_singleton, List.not_mem_nil, or_false, not_or] at hne
  obtain ⟨h34, h38, h60, h62, h92, hls, hps⟩ := hne
  have e34 : c ≠ '"' := by rintro rfl; exact h34 rfl
  have e38 : c ≠ '&' := by rintro rfl; exact h38 rfl
  have e60 : c ≠ '<' := by rintro rfl; exact h60 rfl
  have e62 : c ≠ '>' := by rintro rfl; exact h62 rfl
  have e92 : c ≠ '\\' := by rintro rfl; exact h92 rfl
  unfold escapeChar
  by_cases hlt : c.toNat < 128
  · have hsafe : htmlSafe c = true := by
      simp [htmlSafe, h32, hlt, e34, e38, e60, e62, e92]
    simp only [hlt, if_true, hsafe]
  · have hsep : ¬ (c.toNat = 0x2028 ∨ c.toNat = 0x2029) := by
      rintro (h1 | h1)
      · exact hls h1
      · exact hps h1
    simp only [hlt, if_false, hsep]

theorem flatMap_escapeChar_plain (shortEscapes : Bool) (cs : List Char)
    (h : ∀ c ∈ cs, 32 ≤ c.toNat ∧ c.toNat ∉ [34, 38, 60, 62, 92, 0x2028, 0x2029]) :
    cs.flatMap (escapeChar shortEscapes) = cs := by
  induction cs with
  | nil => rfl
  | cons c cs ih =>
    rw [List.flatMap_cons, escapeChar_plain shortEscapes c (h c (by simp)),
      ih (fun d hd => h d (by simp [hd]))]
    rfl

/-- A string of plain characters is written as it is, between quotes. -/
theorem encodeString_plain (shortEscapes : Bool) (x : String)
    (h : ∀ c ∈ x.data, 32 ≤ c.toNat ∧ c.toNat ∉ [34, 38, 60, 62, 92, 0x2028, 0x2029]) :
    encodeString shortEscapes x = "\"" ++ x ++ "\"" := by
  unfold encodeString
  rw [flatMap_escapeChar_plain shortEscapes x.data h]

/-- The encoding works character by character: the encoding of a
concatenation is the two encodings joined, the inner quotes dropped. -/
theorem encodeString_append (shortEscapes : Bool) (x y : String) :
    encodeString shortEscapes (x ++ y) =
      String.mk ((encodeString shortEscapes x).data.dropLast ++
        (encodeString shortEscapes y).data.tail) := by
  apply String.ext
  have hx : (encodeString shortEscapes x).data.dropLast =
      '"' :: x.data.flatMap (escapeChar shortEscapes) := by
    rw [encodeString_data, ← List.cons_append, List.dropLast_concat]
  rw [hx, encodeString_data, encodeString_data]
  simp [String.data_append, List.flatMap_append]

/-- C3 (the event of an issue): the event built in the loop body has the
title of the issue, the description `Repository: ` + repository URL +
newline + `Direct link: ` + issue URL, and the board and list of the
invocation; a nil issue, title, repository or URL contributes the empty
string. Building the event is a total function: it has no error case. -/
theorem event_fields (trelloBoard trelloList : String) (issue : Option Issue) :
    (Handle.event trelloBoard trelloList issue).Card.Title =
        (issue.bind Issue.Title).getD "" ∧
      (Handle.event trelloBoard trelloList issue).Card.Description =
        "Repository: " ++ ((issue.bind Issue.Repository).bind Repository.HTMLURL).getD "" ++
          "\nDirect link: " ++ (issue.bind Issue.HTMLURL).getD "" ∧
      (Handle.event trelloBoard trelloList issue).Config =
        some ⟨some trelloBoard, some trelloList⟩ ∧
      (Handle.event trelloBoard trelloList none).Card =
        ⟨"", "Repository: \nDirect link: "⟩ := by
  refine ⟨?_, ?_, rfl, rfl⟩
  · rcases issue with _ | ⟨_ | t, u, r⟩ <;> rfl
  · rcases issue with _ | ⟨t, _ | u, _ | ⟨_ | ru⟩⟩ <;> rfl

/-- C4 (wire form): for either string encoder of `encoding/json` (`\b` and
`\f` written short, as since Go 1.22, or as `\u0008` and `\u000c`, as before),
marshalling an event with title `T`, description `D`, board `B` and list `L`
succeeds and yields the object with the keys `card` (`title`, `description`)
and `config` (`board`, `list`) in that order, without whitespace, every value
in its JSON string encoding, and so does every event `Handle` builds. The
string encoding is fixed by the statement: it is a JSON string literal that
denotes the value; it works character by character; a character from the
space on, other than the double quote, the ampersand, the angle brackets, the
backslash, U+2028 and U+2029, is written as it is; those and the control
characters are written as the listed escapes. The event of Scenario A marshals
to the quoted payload under both encoders. -/
theorem Marshal_bytes (shortEscapes : Bool) (T D B L : String) :
    TrelloEvent.Marshal ⟨⟨T, D⟩, some ⟨some B, some L⟩⟩ shortEscapes =
        .ok ("\x7b\"card\":\x7b\"title\":" ++ encodeString shortEscapes T ++
          ",\"description\":" ++ encodeString shortEscapes D ++
          "\x7d,\"config\":\x7b\"board\":" ++ encodeString shortEscapes B ++
          ",\"list\":" ++ encodeString shortEscapes L ++ "\x7d\x7d") ∧
      (∀ issue : Option Issue, (Handle.event B L issue).Marshal shortEscapes =
        .ok ("\x7b\"card\":\x7b\"title\":" ++
          encodeString shortEscapes ((issue.bind Issue.Title).getD "") ++
          ",\"description\":" ++
          encodeString shortEscapes
            ("Repository: " ++
              ((issue.bind Issue.Repository).bind Repository.HTMLURL).getD "" ++
              "\nDirect link: " ++ (issue.bind Issue.HTMLURL).getD "") ++
          "\x7d,\"config\":\x7b\"board\":" ++ encodeString shortEscapes B ++
          ",\"list\":" ++ encodeString shortEscapes L ++ "\x7d\x7d")) ∧
      (∀ x : String, jsonStringValue (encodeString shortEscapes x) = some x) ∧
      (∀ x y : String, encodeString shortEscapes (x ++ y) =
        String.mk ((encodeString shortEscapes x).data.dropLast ++
          (encodeString shortEscapes y).data.tail)) ∧
      (∀ x : String,
        (∀ c ∈ x.data, 32 ≤ c.toNat ∧ c.toNat ∉ [34, 38, 60, 62, 92, 0x2028, 0x2029]) →
        encodeString shortEscapes x = "\"" ++ x ++ "\"") ∧
      [34, 38, 60, 62, 92, 0x2028, 0x2029].map
          (fun n => encodeString shortEscapes (String.singleton (Char.ofNat n))) =
        ["\"\\\"\"", "\"\\u0026\"", "\"\\u003c\"", "\"\\u003e\"", "\"\\\\\"",
         "\"\\u2028\"", "\"\\u2029\""] ∧
      (List.range 32).map (fun n => encodeString false (String.singleton (Char.ofNat n))) =
        ["\"\\u0000\"", "\"\\u0001\"", "\"\\u0002\"", "\"\\u0003\"",
         "\"\\u0004\"", "\"\\u0005\"", "\"\\u0006\"", "\"\\u0007\"",
         "\"\\u0008\"", "\"\\t\"", "\"\\n\"", "\"\\u000b\"",
         "\"\\u000c\"", "\"\\r\"", "\"\\u000e\"", "\"\\u000f\"",
         "\"\\u0010\"", "\"\\u0011\"", "\"\\u0012\"", "\"\\u0013\"",
         "\"\\u0014\"", "\"\\u0015\"", "\"\\u0016\"", "\"\\u0017\"",
         "\"\\u0018\"", "\"\\u0019\"", "\"\\u001a\"", "\"\\u001b\"",
         "\"\\u001c\"", "\"\\u001d\"", "\"\\u001e\"", "\"\\u001f\""] ∧
      (List.range 32).map (fun n => encodeString true (String.singleton (Char.ofNat n))) =
        ["\"\\u0000\"", "\"\\u0001\"", "\"\\u0002\"", "\"\\u0003\"",
         "\"\\u0004\"", "\"\\u0005\"", "\"\\u0006\"", "\"\\u0007\"",
         "\"\\b\"", "\"\\t\"", "\"\\n\"", "\"\\u000b\"",
         "\"\\f\"", "\"\\r\"", "\"\\u000e\"", "\"\\u000f\"",
         "\"\\u0010\"", "\"\\u0011\"", "\"\\u0012\"", "\"\\u0013\"",
         "\"\\u0014\"", "\"\\u0015\"", "\"\\u0016\"", "\"\\u0017\"",
         "\"\\u0018\"", "\"\\u0019\"", "\"\\u001a\"", "\"\\u001b\"",
         "\"\\u001c\"", "\"\\u001d\"", "\"\\u001e\"", "\"\\u001f\""] ∧
      (Handle.event "Main" "Tomorrow"
          (sampleIssue "Bug X" "https://github.com/acme/app"
            "https://github.com/acme/app/issues/5")).Marshal shortEscapes =
        .ok ("\x7b\"card\":\x7b\"title\":\"Bug X\",\"description\":\"Repository: " ++
          "https://github.com/acme/app\\nDirect link: https://github.com/acme/app/issues/5\"" ++
          "\x7d,\"config\":\x7b\"board\":\"Main\",\"list\":\"Tomorrow\"\x7d\x7d") := by
  have key : ∀ t d b l : String,
      TrelloEvent.Marshal ⟨⟨t, d⟩, some ⟨some b, some l⟩⟩ shortEscapes =
      .ok ("\x7b\"card\":\x7b\"title\":" ++ encodeString shortEscapes t ++
        ",\"description\":" ++ encodeString shortEscapes d ++
        "\x7d,\"config\":\x7b\"board\":" ++ encodeString shortEscapes b ++
        ",\"list\":" ++ encodeString shortEscapes l ++ "\x7d\x7d") := by
    intro t d b l
    simp only [TrelloEvent.Marshal, TrelloEvent.encode, Card.encode, Config.encode, ptrEncode,
      structEncode, structEncodeLoop, String.append_assoc, Option.isNone, Bool.and_false,
      Bool.false_and, Bool.false_eq_true, if_false, Bool.and_true]
    simp only [show ("," : String) = "\x7b" ↔ False from by decide, if_false]
    refine congrArg Except.ok (String.ext ?_)
    simp only [String.data_append, List.append_assoc]
    rfl
  refine ⟨key T D B L, ?_, jsonStringValue_encodeString shortEscapes,
    encodeString_append shortEscapes, encodeString_plain shortEscapes, ?_, rfl, rfl, ?_⟩
  · intro issue
    rw [event_eq]
    exact key _ _ B L
  · cases shortEscapes <;> rfl
  · cases shortEscapes <;> rfl


/-! ## strconv.Atoi accepts exactly the integer literals -/

theorem digitVal_le (c : Char) (h : isDigit c = true) : digitVal c ≤ 9 := by
  simp only [isDigit, Bool.and_eq_true, decide_eq_true_eq] at h
  unfold digitVal
  omega

theorem foldl_decimalStep_ge (cs : List Char) (n : Nat) : n ≤ cs.foldl decimalStep n := by
  induction cs generalizing n with
  | nil => exact Nat.le_refl n
  | cons c cs ih =>
    have := ih (decimalStep n c)
    simp only [List.foldl_cons]
    unfold decimalStep at this ⊢
    omega

theorem foldl_decimalStep_lt (cs : List Char) (n : Nat) (h : ∀ c ∈ cs, isDigit c = true) :
    cs.foldl decimalStep n < (n + 1) * 10 ^ cs.length := by
  induction cs generalizing n with
  | nil => simp
  | cons c cs ih =>
    have hc := digitVal_le c (h c (by simp))
    have := ih (decimalStep n c) (fun d hd => h d (by simp [hd]))
    simp only [List.foldl_cons, List.length_cons]
    have h2 : (decimalStep n c + 1) * 10 ^ cs.length ≤ (n + 1) * 10 ^ (cs.length + 1) := by
      rw [pow_succ, ← Nat.mul_assoc, Nat.mul_right_comm]
      apply Nat.mul_le_mul_right
      unfold decimalStep
      omega
    omega

theorem parseUintLoop_ok_iff (cs : List Char) (n m : Nat) (hn : n < 2 ^ 64) :
    parseUintLoop cs n = .ok m ↔
      (∀ c ∈ cs, isDigit c = true) ∧ cs.foldl decimalStep n = m ∧ m < 2 ^ 64 := by
  induction cs generalizing n with
  | nil =>
    simp only [parseUintLoop, Except.ok.injEq, List.foldl_nil, List.not_mem_nil, false_implies,
      implies_true, true_and]
    constructor
    · rintro rfl; exact ⟨rfl, hn⟩
    · rintro ⟨h, -⟩; exact h
  | cons c cs ih =>
    unfold parseUintLoop
    have hge : n * 10 + digitVal c ≤ cs.foldl decimalStep (decimalStep n c) :=
      foldl_decimalStep_ge cs (decimalStep n c)
    by_cases hd : isDigit c = true
    · have hc := digitVal_le c hd
      simp only [hd, if_true, List.foldl_cons, List.mem_cons, forall_eq_or_imp, true_and]
      by_cases h1 : n ≥ (2 ^ 64 - 1) / 10 + 1
      · simp only [h1, if_true]
        constructor
        · intro h; cases h
        · rintro ⟨-, hm, hlt⟩
          exfalso
          norm_num at h1 hlt
          omega
      · simp only [h1, if_false]
        by_cases h2 : n * 10 + digitVal c > 2 ^ 64 - 1
        · simp only [h2, if_true]
          constructor
          · intro h; cases h
          · rintro ⟨-, hm, hlt⟩
            exfalso
            norm_num at h2 hlt
            omega
        · simp only [h2, if_false]
          have hn1 : n * 10 + digitVal c < 2 ^ 64 := by
            norm_num at h2 ⊢
            omega
          exact ih (n * 10 + digitVal c) hn1
    · simp only [hd, Bool.false_eq_true, if_false, List.mem_cons, forall_eq_or_imp, false_and]
      constructor
      · intro h; cases h
      · intro h; exact h.elim

theorem atoiFastLoop_ok_iff (cs : List Char) (n : Nat) (m : Int) :
    atoiFastLoop cs (n : Int) = .ok m ↔
      (∀ c ∈ cs, isDigit c = true) ∧ m = (cs.foldl decimalStep n : Nat) := by
  induction cs generalizing n with
  | nil =>
    simp only [atoiFastLoop, Except.ok.injEq, List.foldl_nil, List.not_mem_nil, false_implies,
      implies_true, true_and]
    exact eq_comm
  | cons c cs ih =>
    unfold atoiFastLoop
    by_cases hd : isDigit c = true
    · simp only [hd, if_true, List.foldl_cons, List.mem_cons, forall_eq_or_imp, true_and]
      have := ih (decimalStep n c)
      unfold decimalStep at this ⊢
      push_cast at this
      exact this
    · simp only [hd, Bool.false_eq_true, if_false, List.mem_cons, forall_eq_or_imp, false_and]
      constructor
      · intro h; cases h
      · intro h; exact h.elim


theorem length_le_utf8ByteSize (s : String) : s.data.length ≤ s.utf8ByteSize := by
  have key : ∀ cs : List Char, cs.length ≤ String.utf8ByteSize.go cs := by
    intro cs
    induction cs with
    | nil => exact Nat.le_refl 0
    | cons c cs ih =>
      have := Char.utf8Size_pos c
      simp only [List.length_cons, String.utf8ByteSize.go]
      omega
  exact key s.data

/-- An integer literal, read the way the parsers pick off the sign: by the
first character. -/
theorem isIntLiteral_iff (s : String) (n : Int) :
    IsIntLiteral s n ↔
      ∃ c cs, s.data = c :: cs ∧
        (if c = '+' ∨ c = '-' then cs else c :: cs) ≠ [] ∧
        (∀ d ∈ (if c = '+' ∨ c = '-' then cs else c :: cs), isDigit d = true) ∧
        n = (if c = '-' then
              -(decimalValue (if c = '+' ∨ c = '-' then cs else c :: cs) : Int)
            else (decimalValue (if c = '+' ∨ c = '-' then cs else c :: cs) : Int)) ∧
        -(2 ^ 63) ≤ n ∧ n < 2 ^ 63 := by
  constructor
  · rintro ⟨sign, digits, hdata, hsign, hne, hdig, hn, hlo, hhi⟩
    rcases hsign with rfl | rfl | rfl
    · rcases digits with _ | ⟨c, cs⟩
      · exact absurd rfl hne
      · have hc : isDigit c = true := hdig c (by simp)
        have h1 : c ≠ '+' := by rintro rfl; revert hc; decide
        have h2 : c ≠ '-' := by rintro rfl; revert hc; decide
        refine ⟨c, cs, by simpa using hdata, ?_⟩
        simp only [h1, h2, or_self, if_false]
        exact ⟨by simp, hdig, by simpa using hn, hlo, hhi⟩
    · refine ⟨'+', digits, by simpa using hdata, ?_⟩
      simp only [true_or, if_true]
      refine ⟨hne, hdig, ?_, hlo, hhi⟩
      rw [hn]
      simp
    · refine ⟨'-', digits, by simpa using hdata, ?_⟩
      simp only [or_true, if_true]
      exact ⟨hne, hdig, by simpa using hn, hlo, hhi⟩
  · rintro ⟨c, cs, hdata, hne, hdig, hn, hlo, hhi⟩
    by_cases h1 : c = '+'
    · subst h1
      simp only [true_or, if_true] at hne hdig hn
      refine ⟨['+'], cs, by simpa using hdata, Or.inr (Or.inl rfl), hne, hdig, ?_, hlo, hhi⟩
      rw [hn]
      simp
    · by_cases h2 : c = '-'
      · subst h2
        simp only [or_true, if_true] at hne hdig hn
        exact ⟨['-'], cs, by simpa using hdata, Or.inr (Or.inr rfl), hne, hdig,
          by simpa using hn, hlo, hhi⟩
      · simp only [h1, h2, or_self, if_false] at hne hdig hn
        exact ⟨[], c :: cs, by simpa using hdata, Or.inl rfl, hne, hdig, by simpa using hn,
          hlo, hhi⟩


/-- The fast path of `Atoi` on a body picked off after the sign. -/
theorem atoiFast_ok_iff (c : Char) (body : List Char) (n : Int) (hlen : body.length ≤ 18) :
    (if body.length < 1 then (.error .invalidSyntax : Except NumErr Int)
      else
        match atoiFastLoop body 0 with
        | .error e => .error e
        | .ok m => .ok (if c = '-' then -m else m)) = .ok n ↔
      body ≠ [] ∧ (∀ d ∈ body, isDigit d = true) ∧
        n = (if c = '-' then -(decimalValue body : Int) else (decimalValue body : Int)) ∧
        -(2 ^ 63) ≤ n ∧ n < 2 ^ 63 := by
  by_cases hb : body = []
  · subst hb
    simp
  · have hpos : ¬ body.length < 1 := by
      have := List.length_pos.mpr hb
      omega
    simp only [hpos, if_false, hb, ne_eq, not_false_eq_true, true_and]
    have hiff := atoiFastLoop_ok_iff body 0
    simp only [Nat.cast_zero] at hiff
    cases hloop : atoiFastLoop body 0 with
    | error e =>
      constructor
      · intro h; cases h
      · rintro ⟨hdig, -⟩
        have := (hiff (decimalValue body)).mpr ⟨hdig, rfl⟩
        rw [hloop] at this
        cases this
    | ok m =>
      obtain ⟨hdig, hm⟩ := (hiff m).mp hloop
      have hlt : decimalValue body < (0 + 1) * 10 ^ body.length :=
        foldl_decimalStep_lt body 0 hdig
      have hpow : 10 ^ body.length ≤ 10 ^ 18 := Nat.pow_le_pow_right (by norm_num) hlen
      have hv : (decimalValue body : Int) < 10 ^ 18 := by
        have : decimalValue body < 10 ^ 18 := by omega
        exact_mod_cast this
      have hm2 : m = (decimalValue body : Int) := hm
      subst hm2
      simp only [Except.ok.injEq]
      constructor
      · rintro rfl
        refine ⟨hdig, rfl, ?_, ?_⟩ <;> split_ifs <;> norm_num at hv ⊢ <;> omega
      · rintro ⟨-, rfl, -, -⟩
        rfl

/-- The slow path of `Atoi` on a body picked off after the sign. -/
theorem parseIntBody_ok_iff (c : Char) (body : List Char) (n : Int) :
    (match ParseUint body with
      | .error .invalidSyntax => (.error .invalidSyntax : Except NumErr Int)
      | .error .outOfRange => .error .outOfRange
      | .ok un =>
        if !decide (c = '-') && decide (un ≥ 2 ^ 63) then .error .outOfRange
        else if decide (c = '-') && decide (un > 2 ^ 63) then .error .outOfRange
        else .ok (if decide (c = '-') = true then -(un : Int) else (un : Int))) = .ok n ↔
      body ≠ [] ∧ (∀ d ∈ body, isDigit d = true) ∧
        n = (if c = '-' then -(decimalValue body : Int) else (decimalValue body : Int)) ∧
        -(2 ^ 63) ≤ n ∧ n < 2 ^ 63 := by
  by_cases hb : body = []
  · subst hb
    simp [ParseUint]
  · have hiff := parseUintLoop_ok_iff body 0
    simp only [ParseUint, hb, if_false, ne_eq, not_false_eq_true, true_and]
    cases hloop : parseUintLoop body 0 with
    | error e =>
      have hno : ¬ ((∀ d ∈ body, isDigit d = true) ∧ decimalValue body < 2 ^ 64) := by
        rintro ⟨hdig, hlt⟩
        have := (hiff (decimalValue body) (by norm_num)).mpr ⟨hdig, rfl, hlt⟩
        rw [hloop] at this
        cases this
      have hno2 : ¬ ((∀ d ∈ body, isDigit d = true) ∧
          n = (if c = '-' then -(decimalValue body : Int) else (decimalValue body : Int)) ∧
          -(2 ^ 63) ≤ n ∧ n < 2 ^ 63) := by
        rintro ⟨hdig, hn, hlo, hhi⟩
        apply hno
        refine ⟨hdig, ?_⟩
        have : (decimalValue body : Int) < 2 ^ 64 := by
          split_ifs at hn <;> norm_num at hlo hhi ⊢ <;> omega
        exact_mod_cast this
      cases e <;>
      · constructor
        · intro h; cases h
        · intro h; exact absurd h hno2
    | ok un =>
      obtain ⟨hdig, hun, hlt⟩ := (hiff un (by norm_num)).mp hloop
      have hun2 : decimalValue body = un := hun
      subst hun2
      simp only [hdig, implies_true, true_and]
      by_cases hc : c = '-'
      · subst hc
        simp only [decide_True, Bool.not_true, Bool.false_and, Bool.false_eq_true, if_false,
          Bool.true_and, decide_eq_true_eq, if_true]
        by_cases h2 : decimalValue body > 2 ^ 63
        · simp only [h2, if_true]
          constructor
          · intro h; cases h
          · rintro ⟨-, hn, hlo, -⟩
            exfalso
            have : (decimalValue body : Int) > 2 ^ 63 := by exact_mod_cast h2
            omega
        · simp only [h2, if_false, Except.ok.injEq]
          have : (decimalValue body : Int) ≤ 2 ^ 63 := by
            have := Nat.le_of_not_gt h2
            exact_mod_cast this
          constructor
          · rintro rfl
            exact ⟨hdig, rfl, by omega, by omega⟩
          · rintro ⟨-, rfl, -, -⟩
            rfl
      · simp only [hc, decide_False, Bool.not_false, Bool.true_and, decide_eq_true_eq,
          Bool.false_and, Bool.false_eq_true, if_false]
        by_cases h2 : decimalValue body ≥ 2 ^ 63
        · simp only [h2, if_true]
          constructor
          · intro h; cases h
          · rintro ⟨-, hn, -, hhi⟩
            exfalso
            have : (decimalValue body : Int) ≥ 2 ^ 63 := by exact_mod_cast h2
            omega
        · simp only [h2, if_false, Except.ok.injEq]
          have : (decimalValue body : Int) < 2 ^ 63 := by
            have := Nat.lt_of_not_ge h2
            exact_mod_cast this
          constructor
          · rintro rfl
            exact ⟨hdig, rfl, by omega, by omega⟩
          · rintro ⟨-, rfl, -, -⟩
            rfl


/-- The value part of `strconv.Atoi` accepts exactly the integer literals of
the 64-bit range, with their value. -/
theorem atoiCore_ok_iff (s : String) (n : Int) : atoiCore s = .ok n ↔ IsIntLiteral s n := by
  rw [isIntLiteral_iff]
  unfold atoiCore
  cases hdata : s.data with
  | nil =>
    have hr : ¬ ∃ c cs, ([] : List Char) = c :: cs ∧
        (if c = '+' ∨ c = '-' then cs else c :: cs) ≠ [] ∧
        (∀ d ∈ (if c = '+' ∨ c = '-' then cs else c :: cs), isDigit d = true) ∧
        n = (if c = '-' then
              -(decimalValue (if c = '+' ∨ c = '-' then cs else c :: cs) : Int)
            else (decimalValue (if c = '+' ∨ c = '-' then cs else c :: cs) : Int)) ∧
        -(2 ^ 63) ≤ n ∧ n < 2 ^ 63 := by
      rintro ⟨c, cs, h, -⟩
      cases h
    constructor
    · intro h
      exfalso
      split_ifs at h
      simp [ParseInt] at h
    · intro h
      exact absurd h hr
  | cons c cs =>
    have hex : ∀ P : Char → List Char → Prop,
        (∃ c' cs', c :: cs = c' :: cs' ∧ P c' cs') ↔ P c cs := by
      intro P
      constructor
      · rintro ⟨c', cs', h, hp⟩
        cases h
        exact hp
      · intro hp
        exact ⟨c, cs, rfl, hp⟩
    rw [hex (fun c cs => (if c = '+' ∨ c = '-' then cs else c :: cs) ≠ [] ∧
        (∀ d ∈ (if c = '+' ∨ c = '-' then cs else c :: cs), isDigit d = true) ∧
        n = (if c = '-' then
              -(decimalValue (if c = '+' ∨ c = '-' then cs else c :: cs) : Int)
            else (decimalValue (if c = '+' ∨ c = '-' then cs else c :: cs) : Int)) ∧
        -(2 ^ 63) ≤ n ∧ n < 2 ^ 63)]
    by_cases hfast : 0 < s.utf8ByteSize ∧ s.utf8ByteSize < 19
    · simp only [hfast, and_self, if_true]
      have hlen : (if c = '+' ∨ c = '-' then cs else c :: cs).length ≤ 18 := by
        have h1 := length_le_utf8ByteSize s
        rw [hdata] at h1
        simp only [List.length_cons] at h1
        split_ifs
        · omega
        · simp only [List.length_cons]; omega
      have hbody : (if c = '-' ∨ c = '+' then cs else c :: cs) =
          (if c = '+' ∨ c = '-' then cs else c :: cs) := by
        simp only [or_comm]
      simp only [hbody]
      exact atoiFast_ok_iff c _ n hlen
    · simp only [hfast, if_false, ParseInt]
      exact parseIntBody_ok_iff c _ n

/-- Function `strconv.Atoi` returns a value exactly on the integer literals. -/
theorem Atoi_ok_iff (quote : String → String) (s : String) (n : Int) :
    Atoi quote s = .ok n ↔ IsIntLiteral s n := by
  rw [← atoiCore_ok_iff]
  unfold Atoi
  cases atoiCore s with
  | error e => constructor <;> intro h <;> cases h
  | ok m => simp

/-- Function `strconv.Atoi` returns an error on everything else. -/
theorem Atoi_error_of_not_literal (quote : String → String) (s : String)
    (h : ¬ ∃ n, IsIntLiteral s n) : ∃ e, Atoi quote s = .error e := by
  cases hA : Atoi quote s with
  | error e => exact ⟨e, rfl⟩
  | ok n => exact absurd ⟨n, (Atoi_ok_iff quote s n).mp hA⟩ h


/-! ## The checkpoint and the interval setting -/

/-- Once the secret is read and the interval parses, the issues are fetched
exactly once, with the token and the checkpoint computed from the interval. -/
theorem Handle_fetches (w : World) (req : HandlerRequest) (tok : String) (timeInterval : Int)
    (hs : secretOf w = .ok tok) (hi : intervalOf w = .ok timeInterval) :
    fetches (Handle w req).trace = [(tok, Handle.since w.now timeInterval)] := by
  obtain ⟨hsf, -, -⟩ := secret_trace w "github-accesstoken"
  cases hf : w.issuesList tok (Handle.since w.now timeInterval) with
  | error e =>
    rw [Handle_of_fetch_error w req tok timeInterval e hs hi hf]
    simp [fetches_append, hsf, fetches]
  | ok issues =>
    rcases all_delivered_or_first_failure w issues with hd | ⟨k, x, msg, e, n, hk, hd, hfa⟩
    · rw [Handle_of_all_delivered w req tok timeInterval issues hs hi hf hd]
      simp [fetches_append, hsf, fetches, deliveredTrace_fetches]
    · rw [Handle_of_first_failure w req tok timeInterval issues k x msg e n hs hi hf hk hd hfa]
      simp [fetches_append, hsf, fetches, deliveredTrace_fetches, fetches_replicate]

/-- When the interval does not parse, `Handle` fails without any call to the
GitHub client or to the downstream function. -/
theorem Handle_no_network_of_interval_error (w : World) (req : HandlerRequest) (e : GoError)
    (hi : intervalOf w = .error e) :
    (Handle w req).resp.StatusCode = 500 ∧ (Handle w req).err ≠ none ∧
      fetches (Handle w req).trace = [] ∧ attempts (Handle w req).trace = [] ∧
      sends (Handle w req).trace = [] := by
  obtain ⟨hsf, hsa, hss⟩ := secret_trace w "github-accesstoken"
  cases hs : secretOf w with
  | error e2 =>
    rw [Handle_of_secret_error w req e2 hs]
    exact ⟨rfl, by simp, hsf, hsa, hss⟩
  | ok tok =>
    rw [Handle_of_interval_error w req tok e hs hi]
    exact ⟨rfl, by simp, hsf, hsa, hss⟩

/-- C5, as the code has it: for an interval `I` of at most 153722867 minutes
in absolute value (the values whose nanoseconds fit in 64 bits) and a current
instant `T`, the one fetch of `Handle` is made with the checkpoint
`T - I minutes`, exactly; the checkpoint is a well formed instant when `T` is. -/
theorem Handle_since_exact (w : World) (req : HandlerRequest) (tok : String)
    (timeInterval : Int)
    (hs : secretOf w = .ok tok) (hi : intervalOf w = .ok timeInterval)
    (h1 : -153722867 ≤ timeInterval) (h2 : timeInterval ≤ 153722867) :
    ∃ t, fetches (Handle w req).trace = [(tok, t)] ∧
      t.UnixNano = w.now.UnixNano - timeInterval * Minute ∧ (w.now.Valid → t.Valid) :=
  ⟨Handle.since w.now timeInterval, Handle_fetches w req tok timeInterval hs hi,
    since_unixNano w.now timeInterval h1 h2, fun hv => Time.valid_add _ _ hv⟩

/-- Scenario A: an interval of sixty minutes at second 1000 gives the
checkpoint at second -2600. -/
theorem Handle_since_exact_witness :
    ∃ t, fetches (Handle worldA ⟨""⟩).trace = [("tok", t)] ∧
      t.UnixNano = worldA.now.UnixNano - 60 * Minute ∧ (worldA.now.Valid → t.Valid) :=
  Handle_since_exact worldA ⟨""⟩ "tok" 60 rfl rfl (by decide) (by decide)

/-- C5 fails for large intervals: with the interval 153722868 the setting
parses, the product with `time.Minute` wraps, and the checkpoint passed to the
fetch lies in the future instead of at `T - I minutes`. -/
theorem Handle_since_overflow_counterexample :
    intervalOf worldBig = .ok 153722868 ∧
      fetches (Handle worldBig ⟨""⟩).trace = [("tok", ⟨9223372993, 709551621⟩)] ∧
      (⟨9223372993, 709551621⟩ : Time).UnixNano ≠ worldBig.now.UnixNano - 153722868 * Minute ∧
      (⟨9223372993, 709551621⟩ : Time).UnixNano > worldBig.now.UnixNano :=
  ⟨rfl, rfl, by decide, by decide⟩

/-- C7, as the code has it: when the interval setting does not parse, `Handle`
fails with status 500 and a non-nil error before any call to the GitHub client
or the downstream function, whatever else holds; when moreover the secret was
read, the body is `error getting timeinterval: ` followed by the parse error
and the error returned is the parse error. The setting `abc` does not parse:
its error is the syntax error of `strconv.Atoi`. -/
theorem Handle_malformed_interval (w : World) (req : HandlerRequest) (e : GoError)
    (hi : intervalOf w = .error e) :
    ((Handle w req).resp.StatusCode = 500 ∧ (Handle w req).err ≠ none ∧
      fetches (Handle w req).trace = [] ∧ attempts (Handle w req).trace = [] ∧
      sends (Handle w req).trace = []) ∧
    (∀ tok, secretOf w = .ok tok →
      (Handle w req).resp = ⟨"error getting timeinterval: " ++ e.msg, 500⟩ ∧
      (Handle w req).err = some e) ∧
    (getEnvKey w "interval" "120" = "abc" →
      e = ⟨"strconv.Atoi: parsing " ++ w.quote "abc" ++ ": invalid syntax"⟩) := by
  refine ⟨Handle_no_network_of_interval_error w req e hi, ?_, ?_⟩
  · intro tok hs
    rw [Handle_of_interval_error w req tok e hs hi]
    exact ⟨rfl, rfl⟩
  · intro habc
    unfold intervalOf at hi
    rw [habc] at hi
    have hc : atoiCore "abc" = .error .invalidSyntax := rfl
    have : Atoi w.quote "abc" =
        .error ⟨"strconv.Atoi: parsing " ++ w.quote "abc" ++ ": invalid syntax"⟩ := by
      unfold Atoi
      rw [hc]
      simp only [NumErr.text]
      rw [String.append_assoc _ ": " "invalid syntax"]
      rfl
    rw [this] at hi
    exact (Except.error.inj hi).symm

/-- Scenario B: the interval `abc` with a mounted secret. -/
theorem Handle_malformed_interval_witness :
    (Handle worldB ⟨""⟩).resp =
        ⟨"error getting timeinterval: strconv.Atoi: parsing \"abc\": invalid syntax", 500⟩ ∧
      (Handle worldB ⟨""⟩).err = some ⟨"strconv.Atoi: parsing \"abc\": invalid syntax"⟩ ∧
      fetches (Handle worldB ⟨""⟩).trace = [] ∧ sends (Handle worldB ⟨""⟩).trace = [] :=
  have h := Handle_malformed_interval worldB ⟨""⟩
    ⟨"strconv.Atoi: parsing \"abc\": invalid syntax"⟩ rfl
  ⟨(h.2.1 "tok" rfl).1, (h.2.1 "tok" rfl).2, h.1.2.2.1, h.1.2.2.2.2⟩

/-- C7 fails when the secret is missing: with the interval `abc` and no
mounted secret, `Handle` reports the secret error, not the parse error. -/
theorem Handle_malformed_interval_counterexample :
    getEnvKey worldBNoSecret "interval" "120" = "abc" ∧
      intervalOf worldBNoSecret =
        .error ⟨"strconv.Atoi: parsing \"abc\": invalid syntax"⟩ ∧
      (Handle worldBNoSecret ⟨""⟩).resp =
        ⟨"error reading GitHub personal access token: " ++
          "open /run/secrets/github-accesstoken: no such file or directory", 500⟩ ∧
      (Handle worldBNoSecret ⟨""⟩).err =
        some ⟨"open /run/secrets/github-accesstoken: no such file or directory"⟩ ∧
      (Handle worldBNoSecret ⟨""⟩).resp.Body ≠
        "error getting timeinterval: strconv.Atoi: parsing \"abc\": invalid syntax" ∧
      (Handle worldBNoSecret ⟨""⟩).err ≠
        some ⟨"strconv.Atoi: parsing \"abc\": invalid syntax"⟩ :=
  ⟨rfl, rfl, rfl, rfl, by decide, by decide⟩

/-- C10, as the code has it: the interval setting must be the decimal form of
an integer of the 64-bit range, of either sign. For every setting that is not
(no optional sign followed by one or more decimal digits, or a value outside
`-2^63 .. 2^63 - 1`), `Handle` fails with status 500 and a non-nil error and
fetches nothing, and when the secret was read the failure is the interval
error. Every setting that is such a literal, negative ones included, parses
to its value. -/
theorem Handle_rejects_non_integer (w : World) (req : HandlerRequest) :
    ((¬ ∃ n, IsIntLiteral (getEnvKey w "interval" "120") n) →
      ((Handle w req).resp.StatusCode = 500 ∧ (Handle w req).err ≠ none ∧
        fetches (Handle w req).trace = [] ∧ attempts (Handle w req).trace = [] ∧
        sends (Handle w req).trace = []) ∧
      (∀ tok, secretOf w = .ok tok → ∃ e, intervalOf w = .error e ∧
        (Handle w req).resp = ⟨"error getting timeinterval: " ++ e.msg, 500⟩ ∧
        (Handle w req).err = some e)) ∧
    (∀ n, IsIntLiteral (getEnvKey w "interval" "120") n ↔ intervalOf w = .ok n) := by
  constructor
  · intro hnot
    obtain ⟨e, he⟩ := Atoi_error_of_not_literal w.quote _ hnot
    refine ⟨Handle_no_network_of_interval_error w req e he, ?_⟩
    intro tok hs
    refine ⟨e, he, ?_⟩
    rw [Handle_of_interval_error w req tok e hs he]
    exact ⟨rfl, rfl⟩
  · intro n
    exact (Atoi_ok_iff w.quote _ n).symm

/-- C10 fails for negative integers: the setting `-5` parses to minus five,
`Handle` goes on to fetch with a checkpoint five minutes after the current
instant, and the run succeeds. -/
theorem Handle_negative_interval_counterexample :
    getEnvKey worldNeg "interval" "120" = "-5" ∧
      intervalOf worldNeg = .ok (-5) ∧
      fetches (Handle worldNeg ⟨""⟩).trace = [("tok", ⟨1300, 5⟩)] ∧
      worldNeg.now = ⟨1000, 5⟩ ∧
      (Handle worldNeg ⟨""⟩).resp = ⟨"found a total of 0 new issues", 200⟩ ∧
      (Handle worldNeg ⟨""⟩).err = none :=
  ⟨rfl, rfl, rfl, rfl, rfl, rfl⟩


/-! ## The scenarios once more -/

/-- Three issues, all delivered: the run reports three, and three events were
attempted and sent. -/
theorem Handle_success_reports_count_witness :
    (Handle worldThree ⟨""⟩).err = none ∧
      (Handle worldThree ⟨""⟩).resp = ⟨"found a total of 3 new issues", 200⟩ ∧
      (attempts (Handle worldThree ⟨""⟩).trace).length = 3 ∧
      (sends (Handle worldThree ⟨""⟩).trace).length = 3 := by
  obtain ⟨tok, ti, issues, -, -, hf, hresp, ha, hsd, -, -⟩ :=
    (Handle_success_reports_count worldThree ⟨""⟩).1 rfl
  have hl : Except.ok
      [sampleIssue "one" "https://github.com/acme/app" "https://github.com/acme/app/issues/1",
       some ⟨some "two", none, none⟩, none] = (Except.ok issues : Except GoError _) := hf
  cases hl
  exact ⟨rfl, hresp, ha, hsd⟩

/-- Scenario C: the failing send is the first failure, and the run reports it. -/
theorem Handle_status_witness :
    (Handle worldC ⟨""⟩).resp =
        ⟨"received error from Trello function: " ++ "dial tcp: connection refused", 500⟩ ∧
      (Handle worldC ⟨""⟩).err = some ⟨"dial tcp: connection refused"⟩ :=
  (Handle_status worldC ⟨""⟩).2.2.1 "received error from Trello function: "
    ⟨"dial tcp: connection refused"⟩
    (FirstFailure.dispatch "tok" 60 _ 1
      (sampleIssue "two" "https://github.com/acme/app" "https://github.com/acme/app/issues/2")
      _ _ 1 rfl rfl rfl rfl
      (by
        intro i x hi hx
        obtain rfl : i = 0 := by omega
        obtain rfl : sampleIssue "one" "https://github.com/acme/app"
            "https://github.com/acme/app/issues/1" = x := by simpa using hx
        exact ⟨_, rfl, rfl, ⟨200, ""⟩, rfl⟩)
      (FailsAt.send _ _ rfl rfl rfl))

/-- Scenario B: `abc` is no integer literal, and nothing is fetched. -/
theorem Handle_rejects_non_integer_witness :
    (¬ ∃ n, IsIntLiteral (getEnvKey worldB "interval" "120") n) ∧
      fetches (Handle worldB ⟨""⟩).trace = [] ∧
      (Handle worldB ⟨""⟩).resp.StatusCode = 500 :=
  have hnot : ¬ ∃ n, IsIntLiteral (getEnvKey worldB "interval" "120") n := by
    rintro ⟨n, hn⟩
    have h := ((Handle_rejects_non_integer worldB ⟨""⟩).2 n).mp hn
    have h2 : intervalOf worldB =
        .error ⟨"strconv.Atoi: parsing \"abc\": invalid syntax"⟩ := rfl
    rw [h2] at h
    cases h
  have h := (Handle_rejects_non_integer worldB ⟨""⟩).1 hnot
  ⟨hnot, h.1.2.2.1, h.1.1⟩

end GithubOpenfaas
